import Mathlib

/-!
Shallow embedding of the veet-code-go statistics lambdas.

Source files:
* `src/unnamed/part_000` (third unit): questions report — `generateStatistics`,
  `getSortedDates` (uses `sort.SliceStable` with layout `"02/01/2006"` and a
  byte-wise string fallback when either date fails to parse).
* `src/study_statistics/lambda_retrieve_ordered_stats_from_studies.go`: study
  report — `generateStatistics` (sorts records with `sort.Slice`, parse errors
  ignored so failed dates become the zero `time.Time`), `addToTotalMinutesPerDay`.
* `src/unnamed/part_001` and the batch variant: ingestion — `putItemToDynamoDB`
  and `putMultipleItemsToDynamoDB`, which validate `minutes` with `strconv.Atoi`
  before any write is issued.

Modelling conventions:
* Go `int` is modelled as `Int` (overflow is unreachable for these inputs and
  is not modelled).
* Go maps are modelled as insertion-ordered association lists; Go's map
  iteration order is unspecified, so the embedding fixes insertion order as a
  deterministic refinement (the properties proved below are insensitive to it).
* Go slices are modelled by `GoSlice`, which tracks whether the slice is `nil`
  (a `nil` slice marshals to JSON `null`, an empty one to `[]`).
* `sort.SliceStable` is modelled by a stable insertion sort; `sort.Slice` (study
  report) is modelled by the same sort, a deterministic refinement whose
  tie order the proved properties do not depend on.
* `time.Parse "02/01/2006"` demands exactly two day digits, a `/`, two month
  digits, a `/`, four year digits, and range-checks day and month (with
  Gregorian leap years), returning an error otherwise; `time.Time` values
  produced this way order by (year, month, day).
-/

/-- A parsed calendar date, standing for the `time.Time` produced by
`time.Parse "02/01/2006"` (always midnight UTC, so ordering is by
year/month/day). -/
structure CalendarDate where
  year : Nat
  month : Nat
  day : Nat
deriving DecidableEq, Repr

/-- Gregorian leap-year rule, as used by Go's `time` package. -/
def isLeapYear (y : Nat) : Bool :=
  y % 4 == 0 && (y % 100 != 0 || y % 400 == 0)

/-- Number of days in a month, as range-checked by Go's `time.Parse`. -/
def daysInMonth (y m : Nat) : Nat :=
  if m = 2 then (if isLeapYear y then 29 else 28)
  else if m = 4 ∨ m = 6 ∨ m = 9 ∨ m = 11 then 30
  else 31

/-- Numeric value of a digit character. -/
def digitVal (c : Char) : Nat := c.toNat - 48

/-- `time.Parse("02/01/2006", s)`: exactly `DD/MM/YYYY` with zero-padded
two-digit day and month, four-digit year, and day/month range checks.
Returns `none` exactly when Go returns a parse error. -/
def parseDate (s : String) : Option CalendarDate :=
  match s.data with
  | [d1, d2, s1, m1, m2, s2, y1, y2, y3, y4] =>
    if s1 = '/' ∧ s2 = '/' ∧ d1.isDigit ∧ d2.isDigit ∧ m1.isDigit ∧ m2.isDigit ∧
        y1.isDigit ∧ y2.isDigit ∧ y3.isDigit ∧ y4.isDigit then
      if 1 ≤ 10 * digitVal m1 + digitVal m2 ∧ 10 * digitVal m1 + digitVal m2 ≤ 12 ∧
          1 ≤ 10 * digitVal d1 + digitVal d2 ∧
          10 * digitVal d1 + digitVal d2 ≤
            daysInMonth
              (1000 * digitVal y1 + 100 * digitVal y2 + 10 * digitVal y3 + digitVal y4)
              (10 * digitVal m1 + digitVal m2) then
        some ⟨1000 * digitVal y1 + 100 * digitVal y2 + 10 * digitVal y3 + digitVal y4,
              10 * digitVal m1 + digitVal m2, 10 * digitVal d1 + digitVal d2⟩
      else none
    else none
  | _ => none

/-- `time.Time.Before` on dates produced by `parseDate`: lexicographic on
(year, month, day). -/
def dateBefore (a b : CalendarDate) : Bool :=
  a.year < b.year || (a.year == b.year && (a.month < b.month ||
    (a.month == b.month && a.day < b.day)))

/-- The zero `time.Time` (January 1, year 1), which Go's `time.Parse` returns
alongside an error when parsing fails. -/
def zeroTime : CalendarDate := ⟨1, 1, 1⟩

/-- Go byte-wise string comparison `a < b` on char lists (UTF-8 byte order
coincides with code-point order). -/
def charsLt : List Char → List Char → Bool
  | [], [] => false
  | [], _ :: _ => true
  | _ :: _, [] => false
  | a :: as, b :: bs => if a < b then true else if b < a then false else charsLt as bs

/-- Go string comparison `a < b`. -/
def strLt (a b : String) : Bool := charsLt a.data b.data

/-- A Go slice: `isNil` distinguishes the `nil` slice (JSON `null`) from an
empty non-nil slice (JSON `[]`). `append` always yields a non-nil slice. -/
structure GoSlice (α : Type) where
  isNil : Bool
  data : List α
deriving DecidableEq, Repr

/-- `var s []T` — the nil slice. -/
def GoSlice.nilSlice {α : Type} : GoSlice α := ⟨true, []⟩

/-- `[]T{}` — an empty, non-nil slice. -/
def GoSlice.emptySlice {α : Type} : GoSlice α := ⟨false, []⟩

/-- `append(s, x)`. -/
def GoSlice.push {α : Type} (s : GoSlice α) (x : α) : GoSlice α := ⟨false, s.data ++ [x]⟩

/-- Lookup in a Go map modelled as an association list. -/
def lookupAssoc {α : Type} (k : String) : List (String × α) → Option α
  | [] => none
  | (k', v) :: rest => if k' = k then some v else lookupAssoc k rest

/-- Go `m[k] += v` (and `m[k]++` with `v = 1`): missing keys read as `0` and
are inserted; insertion order of keys is preserved. -/
def bumpAssoc (k : String) (v : Int) : List (String × Int) → List (String × Int)
  | [] => [(k, v)]
  | (k', v') :: rest =>
    if k' = k then (k', v' + v) :: rest else (k', v') :: bumpAssoc k v rest

/-- Go `m[k] = v`. -/
def setAssoc {α : Type} (k : String) (v : α) : List (String × α) → List (String × α)
  | [] => [(k, v)]
  | (k', v') :: rest =>
    if k' = k then (k', v) :: rest else (k', v') :: setAssoc k v rest

/-- Insert `x` into `l` after every element `y` with `lt y x` (stable
insertion step). -/
def insertSorted {α : Type} (lt : α → α → Bool) (x : α) : List α → List α
  | [] => [x]
  | y :: ys => if lt y x then y :: insertSorted lt x ys else x :: y :: ys

/-- Stable insertion sort by a boolean `less` comparator; models
`sort.SliceStable` (and is a deterministic refinement of `sort.Slice`). -/
def sortByLess {α : Type} (lt : α → α → Bool) : List α → List α
  | [] => []
  | x :: xs => insertSorted lt x (sortByLess lt xs)

namespace Questions

/-- A question record (`type Question` in `part_000`). -/
structure Question where
  Name : String
  Date : String
  Difficulty : String
  Tags : List String
deriving DecidableEq, Repr

/-- `type DayStatistic` of the questions report. -/
structure DayStatistic where
  Date : String
  Count : Int
deriving DecidableEq, Repr

/-- `type Statistics` of the questions report. -/
structure Statistics where
  QuestionsCrackedPerDay : GoSlice DayStatistic
  QuestionsCrackedPerDifficulty : List (String × Int)
  QuestionsCrackedPerTag : List (String × Int)
  TotalQuestionsCracked : Int
  IncrementalQuestionsCrackedPerDay : GoSlice DayStatistic
deriving DecidableEq, Repr

/-- The comparator closure inside `getSortedDates`: calendar order when both
dates parse under `"02/01/2006"`, byte-wise string order when either fails. -/
def dateLess (a b : String) : Bool :=
  match parseDate a, parseDate b with
  | some d1, some d2 => dateBefore d1 d2
  | _, _ => strLt a b

/-- `getSortedDates`: list the keys of the daily map and sort them with
`sort.SliceStable` under `dateLess`. Go's map iteration order is unspecified;
the embedding lists keys in insertion order. -/
def getSortedDates (dateMap : List (String × Int)) : List String :=
  sortByLess dateLess (dateMap.map (·.1))

/-- The accumulator of the first loop of `generateStatistics`. -/
structure CountState where
  dailyStats : List (String × Int)
  perDifficulty : List (String × Int)
  perTag : List (String × Int)
  total : Int
deriving Repr

/-- One iteration of the first loop of `generateStatistics`. -/
def countQuestion (s : CountState) (q : Question) : CountState :=
  { dailyStats := bumpAssoc q.Date 1 s.dailyStats
    perDifficulty := bumpAssoc q.Difficulty 1 s.perDifficulty
    perTag := q.Tags.foldl (fun m tag => bumpAssoc tag 1 m) s.perTag
    total := s.total + 1 }

/-- The accumulator of the second loop of `generateStatistics`: the
`orderedQuestions` and `incrementalQuestions` slices and `runningTotal`. -/
structure OrderState where
  ordered : GoSlice DayStatistic
  incremental : GoSlice DayStatistic
  runningTotal : Int
deriving Repr

/-- One iteration of the second loop of `generateStatistics`. -/
def orderStep (dailyStats : List (String × Int)) (s : OrderState) (date : String) :
    OrderState :=
  let count := (lookupAssoc date dailyStats).getD 0
  { ordered := s.ordered.push ⟨date, count⟩
    incremental := s.incremental.push ⟨date, s.runningTotal + count⟩
    runningTotal := s.runningTotal + count }

/-- `generateStatistics` of the questions report (`part_000`, third unit). -/
def generateStatistics (questions : List Question) : Statistics :=
  let c := questions.foldl countQuestion ⟨[], [], [], 0⟩
  let sortedDates := getSortedDates c.dailyStats
  let fin := sortedDates.foldl (orderStep c.dailyStats)
    ⟨GoSlice.nilSlice, GoSlice.nilSlice, 0⟩
  { QuestionsCrackedPerDay := fin.ordered
    QuestionsCrackedPerDifficulty := c.perDifficulty
    QuestionsCrackedPerTag := c.perTag
    TotalQuestionsCracked := c.total
    IncrementalQuestionsCrackedPerDay := fin.incremental }

end Questions

namespace Studies

/-- `type StudyRecord`. -/
structure StudyRecord where
  Date : String
  Theme : String
  Minutes : Int
deriving DecidableEq, Repr

/-- `type DayStatistic` of the study report. -/
structure DayStatistic where
  Date : String
  Minutes : Int
  Themes : List (String × Int)
deriving DecidableEq, Repr

/-- `type Statistics` of the study report. -/
structure Statistics where
  TotalMinutesStudied : Int
  TotalMinutesPerDay : GoSlice DayStatistic
  MinutesPerThemePerDay : List (String × List (String × Int))
deriving DecidableEq, Repr

/-- The comparator closure of the `sort.Slice` call in the study
`generateStatistics`: parse errors are discarded, so an unparseable date
compares as the zero `time.Time`. -/
def recordLess (a b : StudyRecord) : Bool :=
  dateBefore ((parseDate a.Date).getD zeroTime) ((parseDate b.Date).getD zeroTime)

/-- The search-and-update loop of `addToTotalMinutesPerDay`: update the first
entry whose date matches, or report `none` when no entry matches. -/
def updateDay (r : StudyRecord) : List DayStatistic → Option (List DayStatistic)
  | [] => none
  | e :: es =>
    if e.Date = r.Date then
      some (⟨e.Date, e.Minutes + r.Minutes, bumpAssoc r.Theme r.Minutes e.Themes⟩ :: es)
    else (updateDay r es).map (e :: ·)

/-- `addToTotalMinutesPerDay`: bump the first entry with the record's date, or
append a new entry seeded with the last entry's accumulated minutes. -/
def addToTotalMinutesPerDay (t : GoSlice DayStatistic) (r : StudyRecord) :
    GoSlice DayStatistic :=
  match updateDay r t.data with
  | some l => ⟨t.isNil, l⟩
  | none =>
    let previousDayMinutes := ((t.data.getLast?).map (·.Minutes)).getD 0
    t.push ⟨r.Date, previousDayMinutes + r.Minutes, [(r.Theme, r.Minutes)]⟩

/-- The accumulator of the record loop of the study `generateStatistics`. -/
structure StatState where
  themeMinutes : List (String × Int)
  minutesPerThemePerDay : List (String × List (String × Int))
  totalMinutesPerDay : GoSlice DayStatistic
  totalMinutesStudied : Int
deriving Repr

/-- One iteration of the record loop of the study `generateStatistics`. -/
def statStep (s : StatState) (r : StudyRecord) : StatState :=
  let themeMinutes := bumpAssoc r.Theme r.Minutes s.themeMinutes
  let cum := (lookupAssoc r.Theme themeMinutes).getD 0
  let inner := (lookupAssoc r.Theme s.minutesPerThemePerDay).getD []
  { themeMinutes := themeMinutes
    minutesPerThemePerDay :=
      setAssoc r.Theme (setAssoc r.Date cum inner) s.minutesPerThemePerDay
    totalMinutesPerDay := addToTotalMinutesPerDay s.totalMinutesPerDay r
    totalMinutesStudied := s.totalMinutesStudied + r.Minutes }

/-- `generateStatistics` of the study report: sort the records in place with
`sort.Slice` under `recordLess`, then run the accumulation loop.
`totalMinutesPerDay` starts as the non-nil literal `[]DayStatistic{}`. -/
def generateStatistics (records : List StudyRecord) : Statistics :=
  let sorted := sortByLess recordLess records
  let s := sorted.foldl statStep ⟨[], [], GoSlice.emptySlice, 0⟩
  { TotalMinutesStudied := s.totalMinutesStudied
    TotalMinutesPerDay := s.totalMinutesPerDay
    MinutesPerThemePerDay := s.minutesPerThemePerDay }

end Studies

namespace Ingest

/-- `type Study` of the ingestion lambdas (minutes arrive as a string). -/
structure Study where
  StudyTheme : String
  StudyDate : String
  StudyMinutes : String
deriving DecidableEq, Repr

/-- Digit-run parser used by `atoi`. -/
def parseDigits (cs : List Char) : Option Nat :=
  if cs = [] then none
  else if cs.all Char.isDigit then
    some (cs.foldl (fun n c => 10 * n + digitVal c) 0)
  else none

/-- `strconv.Atoi`: an optional single sign followed by one or more digits;
anything else is an error. (Overflow of 64-bit `int` is not modelled; it is
irrelevant to the claims.) Note that negative integers are accepted. -/
def atoi (s : String) : Option Int :=
  match s.data with
  | '+' :: rest => (parseDigits rest).map Int.ofNat
  | '-' :: rest => (parseDigits rest).map (fun n => -(Int.ofNat n))
  | cs => (parseDigits cs).map Int.ofNat

/-- One DynamoDB item as assembled by the ingestion lambdas. -/
structure WriteItem where
  study_theme : String
  study_date : String
  minutes_of_study : Int
deriving DecidableEq, Repr

/-- The request-building loop of `putMultipleItemsToDynamoDB`: every record's
`minutes` is parsed with `strconv.Atoi` and the whole call errors on the first
failure, before any `BatchWriteItem` is issued (the writes happen in a second
loop that runs only when this one finishes without error). -/
def putMultipleItemsToDynamoDB : List Study → Except String (List WriteItem)
  | [] => .ok []
  | st :: rest =>
    match atoi st.StudyMinutes with
    | none => .error "invalid minutes_of_study"
    | some m =>
      (putMultipleItemsToDynamoDB rest).map
        (fun items => ⟨st.StudyTheme, st.StudyDate, m⟩ :: items)

/-- `putItemToDynamoDB` of `part_001`: parse `minutes` with `strconv.Atoi`
before the single `PutItem`; an unparseable value aborts before any write. -/
def putItemToDynamoDB (request : Study) : Except String WriteItem :=
  match atoi request.StudyMinutes with
  | none => .error "invalid minutes_of_study"
  | some m => .ok ⟨request.StudyTheme, request.StudyDate, m⟩

end Ingest

/-! ## Association-list (Go map) lemmas -/

theorem lookupAssoc_bumpAssoc_self (k : String) (v : Int) (m : List (String × Int)) :
    lookupAssoc k (bumpAssoc k v m) = some ((lookupAssoc k m).getD 0 + v) := by
  induction m with
  | nil => simp [bumpAssoc, lookupAssoc]
  | cons p rest ih =>
    obtain ⟨k', v'⟩ := p
    by_cases h : k' = k
    · subst h; simp [bumpAssoc, lookupAssoc]
    · simp [bumpAssoc, lookupAssoc, h, ih]

theorem lookupAssoc_bumpAssoc_ne (j k : String) (v : Int) (m : List (String × Int))
    (h : j ≠ k) : lookupAssoc j (bumpAssoc k v m) = lookupAssoc j m := by
  induction m with
  | nil => simp [bumpAssoc, lookupAssoc, Ne.symm h]
  | cons p rest ih =>
    obtain ⟨k', v'⟩ := p
    by_cases hk : k' = k
    · subst hk
      have hkj : k' ≠ j := fun hh => h hh.symm
      simp [bumpAssoc, lookupAssoc, hkj]
    · by_cases hj : k' = j <;> simp [bumpAssoc, lookupAssoc, hk, hj, h, ih]

theorem keys_bumpAssoc (k : String) (v : Int) (m : List (String × Int)) :
    (bumpAssoc k v m).map Prod.fst =
      if k ∈ m.map Prod.fst then m.map Prod.fst else m.map Prod.fst ++ [k] := by
  induction m with
  | nil => simp [bumpAssoc]
  | cons p rest ih =>
    obtain ⟨k', v'⟩ := p
    by_cases h : k' = k
    · subst h; simp [bumpAssoc]
    · have hks : ¬ k = k' := fun hh => h hh.symm
      simp only [bumpAssoc, if_neg h, List.map_cons, ih]
      by_cases hmem : k ∈ rest.map Prod.fst
      · simp [hmem, hks]
      · simp [hmem, hks]

theorem nodupKeys_bumpAssoc (k : String) (v : Int) (m : List (String × Int))
    (h : (m.map Prod.fst).Nodup) : ((bumpAssoc k v m).map Prod.fst).Nodup := by
  rw [keys_bumpAssoc]
  by_cases hmem : k ∈ m.map Prod.fst
  · simpa [hmem]
  · simp only [hmem, if_false]
    refine List.Nodup.append h (List.nodup_singleton _) ?_
    intro a ha hb
    simp only [List.mem_singleton] at hb
    subst hb
    exact hmem ha

theorem sum_bumpAssoc (k : String) (v : Int) (m : List (String × Int)) :
    ((bumpAssoc k v m).map Prod.snd).sum = (m.map Prod.snd).sum + v := by
  induction m with
  | nil => simp [bumpAssoc]
  | cons p rest ih =>
    obtain ⟨k', v'⟩ := p
    by_cases h : k' = k
    · subst h; simp [bumpAssoc]; ring
    · simp [bumpAssoc, h, ih]; ring

theorem nonneg_bumpAssoc (k : String) (v : Int) (m : List (String × Int))
    (hm : ∀ p ∈ m, 0 ≤ p.2) (hv : 0 ≤ v) : ∀ p ∈ bumpAssoc k v m, 0 ≤ p.2 := by
  induction m with
  | nil => simpa [bumpAssoc]
  | cons q rest ih =>
    obtain ⟨k', v'⟩ := q
    by_cases h : k' = k
    · subst h
      simp only [bumpAssoc, if_pos rfl]
      intro p hp
      rcases List.mem_cons.mp hp with h1 | h2
      · subst h1
        have := hm (k', v') (List.mem_cons_self _ _)
        simpa using add_nonneg this hv
      · exact hm p (List.mem_cons_of_mem _ h2)
    · simp only [bumpAssoc, if_neg h]
      intro p hp
      rcases List.mem_cons.mp hp with h1 | h2
      · subst h1; exact hm (k', v') (List.mem_cons_self _ _)
      · exact ih (fun q hq => hm q (List.mem_cons_of_mem _ hq)) p h2

theorem lookupAssoc_eq_none_iff {α : Type} (k : String) (m : List (String × α)) :
    lookupAssoc k m = none ↔ k ∉ m.map Prod.fst := by
  induction m with
  | nil => simp [lookupAssoc]
  | cons p rest ih =>
    obtain ⟨k', v'⟩ := p
    by_cases h : k' = k
    · subst h; simp [lookupAssoc]
    · have hks : ¬ k = k' := fun hh => h hh.symm
      simp [lookupAssoc, h, hks, ih]

theorem lookupAssoc_getD_nonneg (k : String) (m : List (String × Int))
    (hm : ∀ p ∈ m, 0 ≤ p.2) : 0 ≤ (lookupAssoc k m).getD 0 := by
  induction m with
  | nil => simp [lookupAssoc]
  | cons p rest ih =>
    obtain ⟨k', v'⟩ := p
    by_cases h : k' = k
    · subst h
      simpa [lookupAssoc] using hm (k', v') (List.mem_cons_self _ _)
    · simp only [lookupAssoc, if_neg h]
      exact ih (fun q hq => hm q (List.mem_cons_of_mem _ hq))

theorem lookups_eq_values {α : Type} (m : List (String × α)) (f : Option α → α)
    (hnd : (m.map Prod.fst).Nodup) :
    (m.map Prod.fst).map (fun k => f (lookupAssoc k m)) = m.map (fun p => f (some p.2)) := by
  induction m with
  | nil => simp
  | cons p rest ih =>
    obtain ⟨k', v'⟩ := p
    simp only [List.map_cons, List.nodup_cons] at hnd ⊢
    obtain ⟨hk, hrest⟩ := hnd
    congr 1
    · simp [lookupAssoc]
    · have step : ∀ k ∈ rest.map Prod.fst,
        f (lookupAssoc k ((k', v') :: rest)) = f (lookupAssoc k rest) := by
        intro k hkm
        have hne : k' ≠ k := fun hh => hk (hh ▸ hkm)
        simp [lookupAssoc, hne]
      rw [List.map_congr_left step]
      exact ih hrest

theorem lookupAssoc_setAssoc_self {α : Type} (k : String) (v : α) (m : List (String × α)) :
    lookupAssoc k (setAssoc k v m) = some v := by
  induction m with
  | nil => simp [setAssoc, lookupAssoc]
  | cons p rest ih =>
    obtain ⟨k', v'⟩ := p
    by_cases h : k' = k
    · subst h; simp [setAssoc, lookupAssoc]
    · simp [setAssoc, lookupAssoc, h, ih]

theorem lookupAssoc_setAssoc_ne {α : Type} (j k : String) (v : α) (m : List (String × α))
    (h : j ≠ k) : lookupAssoc j (setAssoc k v m) = lookupAssoc j m := by
  induction m with
  | nil => simp [setAssoc, lookupAssoc, Ne.symm h]
  | cons p rest ih =>
    obtain ⟨k', v'⟩ := p
    by_cases hk : k' = k
    · subst hk
      have hkj : k' ≠ j := fun hh => h hh.symm
      simp [setAssoc, lookupAssoc, hkj]
    · by_cases hj : k' = j <;> simp [setAssoc, lookupAssoc, hk, hj, h, ih]

theorem keys_setAssoc {α : Type} (k : String) (v : α) (m : List (String × α)) :
    (setAssoc k v m).map Prod.fst =
      if k ∈ m.map Prod.fst then m.map Prod.fst else m.map Prod.fst ++ [k] := by
  induction m with
  | nil => simp [setAssoc]
  | cons p rest ih =>
    obtain ⟨k', v'⟩ := p
    by_cases h : k' = k
    · subst h; simp [setAssoc]
    · have hks : ¬ k = k' := fun hh => h hh.symm
      simp only [setAssoc, if_neg h, List.map_cons, ih]
      by_cases hmem : k ∈ rest.map Prod.fst
      · simp [hmem, hks]
      · simp [hmem, hks]

theorem nodupKeys_setAssoc {α : Type} (k : String) (v : α) (m : List (String × α))
    (h : (m.map Prod.fst).Nodup) : ((setAssoc k v m).map Prod.fst).Nodup := by
  rw [keys_setAssoc]
  by_cases hmem : k ∈ m.map Prod.fst
  · simpa [hmem]
  · simp only [hmem, if_false]
    refine List.Nodup.append h (List.nodup_singleton _) ?_
    intro a ha hb
    simp only [List.mem_singleton] at hb
    subst hb
    exact hmem ha

/-! ## Sorting lemmas -/

theorem perm_insertSorted {α : Type} (lt : α → α → Bool) (x : α) (l : List α) :
    (insertSorted lt x l).Perm (x :: l) := by
  induction l with
  | nil => simp [insertSorted]
  | cons y ys ih =>
    by_cases h : lt y x = true
    · simp only [insertSorted, if_pos h]
      exact (ih.cons y).trans (List.Perm.swap x y ys)
    · simp only [insertSorted, h]
      rfl

theorem perm_sortByLess {α : Type} (lt : α → α → Bool) (l : List α) :
    (sortByLess lt l).Perm l := by
  induction l with
  | nil => simp [sortByLess]
  | cons x xs ih =>
    exact (perm_insertSorted lt x (sortByLess lt xs)).trans (ih.cons x)

theorem chain'_insertSorted {α : Type} (lt : α → α → Bool)
    (hasym : ∀ a b, lt a b = true → lt b a = false) (x : α) (l : List α)
    (hl : l.Chain' (fun a b => lt b a = false)) :
    (insertSorted lt x l).Chain' (fun a b => lt b a = false) := by
  induction l with
  | nil => simp [insertSorted]
  | cons y ys ih =>
    by_cases h : lt y x = true
    · simp only [insertSorted, if_pos h]
      have hys : ys.Chain' (fun a b => lt b a = false) := hl.tail
      have hins := ih hys
      refine List.chain'_cons'.mpr ⟨?_, hins⟩
      intro z hz
      cases ys with
      | nil =>
        simp [insertSorted] at hz
        subst hz
        exact hasym _ _ h
      | cons w ws =>
        cases hw : lt w x with
        | true =>
          simp only [insertSorted, if_pos hw, List.head?_cons, Option.mem_def,
            Option.some.injEq] at hz
          subst hz
          exact (List.chain'_cons.mp hl).1
        | false =>
          rw [show insertSorted lt x (w :: ws) = x :: w :: ws from by
            simp [insertSorted, hw]] at hz
          simp only [List.head?_cons, Option.mem_def, Option.some.injEq] at hz
          subst hz
          exact hasym _ _ h
    · simp only [insertSorted, h]
      have hyx : lt y x = false := by
        cases hq : lt y x with
        | false => rfl
        | true => exact absurd hq h
      exact List.chain'_cons.mpr ⟨hyx, hl⟩

theorem chain'_sortByLess {α : Type} (lt : α → α → Bool)
    (hasym : ∀ a b, lt a b = true → lt b a = false) (l : List α) :
    (sortByLess lt l).Chain' (fun a b => lt b a = false) := by
  induction l with
  | nil => simp [sortByLess]
  | cons x xs ih => exact chain'_insertSorted lt hasym x _ ih

theorem filter_insertSorted_pos {α : Type} (lt : α → α → Bool) (p : α → Bool) (x : α)
    (l : List α) (hpx : p x = true) (hl : ∀ y ∈ l, p y = true → lt y x = false) :
    (insertSorted lt x l).filter p = x :: l.filter p := by
  induction l with
  | nil => simp [insertSorted, hpx]
  | cons y ys ih =>
    by_cases h : lt y x = true
    · have hpy : p y = false := by
        cases hpy : p y with
        | false => rfl
        | true => exact absurd h (by simp [hl y (List.mem_cons_self _ _) hpy])
      simp only [insertSorted, if_pos h, List.filter_cons, hpy, ite_false,
        Bool.false_eq_true]
      exact ih fun z hz hpz => hl z (List.mem_cons_of_mem _ hz) hpz
    · simp [insertSorted, h, List.filter_cons, hpx]

theorem filter_insertSorted_neg {α : Type} (lt : α → α → Bool) (p : α → Bool) (x : α)
    (l : List α) (hpx : p x = false) :
    (insertSorted lt x l).filter p = l.filter p := by
  induction l with
  | nil => simp [insertSorted, hpx]
  | cons y ys ih =>
    by_cases h : lt y x = true
    · simp only [insertSorted, if_pos h, List.filter_cons]
      rw [ih]
    · simp [insertSorted, h, List.filter_cons, hpx]

theorem filter_sortByLess {α : Type} (lt : α → α → Bool) (p : α → Bool) (l : List α)
    (hp : ∀ a ∈ l, ∀ b ∈ l, p a = true → p b = true → lt a b = false) :
    (sortByLess lt l).filter p = l.filter p := by
  induction l with
  | nil => simp [sortByLess]
  | cons x xs ih =>
    have ihx := ih fun a ha b hb hpa hpb =>
      hp a (List.mem_cons_of_mem _ ha) b (List.mem_cons_of_mem _ hb) hpa hpb
    by_cases hpx : p x = true
    · have hcond : ∀ y ∈ sortByLess lt xs, p y = true → lt y x = false := by
        intro y hy hpy
        have hyxs : y ∈ xs := (perm_sortByLess lt xs).mem_iff.mp hy
        exact hp y (List.mem_cons_of_mem _ hyxs) x (List.mem_cons_self _ _) hpy hpx
      rw [show sortByLess lt (x :: xs) = insertSorted lt x (sortByLess lt xs) from rfl,
        filter_insertSorted_pos lt p x _ hpx hcond, ihx]
      simp [List.filter_cons, hpx]
    · have hpx' : p x = false := by cases hq : p x with
        | false => rfl
        | true => exact absurd hq hpx
      rw [show sortByLess lt (x :: xs) = insertSorted lt x (sortByLess lt xs) from rfl,
        filter_insertSorted_neg lt p x _ hpx', ihx]
      simp [List.filter_cons, hpx']

theorem chain'_pairwise_of_trans {α : Type} {T : α → α → Prop}
    (ht : ∀ a b c, T a b → T b c → T a c) :
    ∀ {l : List α}, l.Chain' T → l.Pairwise T := by
  intro l hl
  induction l with
  | nil => simp
  | cons x xs ih =>
    rw [List.chain'_cons'] at hl
    obtain ⟨hhead, htail⟩ := hl
    have hp := ih htail
    refine List.pairwise_cons.mpr ⟨?_, hp⟩
    intro y hy
    cases xs with
    | nil => simp at hy
    | cons z zs =>
      have hxz : T x z := hhead z rfl
      rcases List.mem_cons.mp hy with h1 | h2
      · subst h1; exact hxz
      · exact ht x z y hxz ((List.pairwise_cons.mp hp).1 y h2)

/-! ## Calendar-date ordering facts -/

theorem dateBefore_iff (a b : CalendarDate) :
    dateBefore a b = true ↔
      (a.year < b.year ∨ (a.year = b.year ∧ (a.month < b.month ∨
        (a.month = b.month ∧ a.day < b.day)))) := by
  simp [dateBefore, Bool.or_eq_true, Bool.and_eq_true, beq_iff_eq, decide_eq_true_eq]

theorem dateBefore_false_iff (a b : CalendarDate) :
    dateBefore a b = false ↔
      ¬(a.year < b.year ∨ (a.year = b.year ∧ (a.month < b.month ∨
        (a.month = b.month ∧ a.day < b.day)))) := by
  rw [Bool.eq_false_iff]
  exact not_congr (dateBefore_iff a b)

theorem dateBefore_asymm (a b : CalendarDate) (h : dateBefore a b = true) :
    dateBefore b a = false := by
  rw [dateBefore_iff] at h
  rw [dateBefore_false_iff]
  omega

theorem dateBefore_trans (a b c : CalendarDate) (h1 : dateBefore a b = true)
    (h2 : dateBefore b c = true) : dateBefore a c = true := by
  rw [dateBefore_iff] at h1 h2 ⊢
  omega

theorem dateBefore_nlt_trans (a b c : CalendarDate) (h1 : dateBefore b a = false)
    (h2 : dateBefore c b = false) : dateBefore c a = false := by
  rw [dateBefore_false_iff] at h1 h2 ⊢
  omega

theorem dateBefore_antisymm (a b : CalendarDate) (h1 : dateBefore a b = false)
    (h2 : dateBefore b a = false) : a = b := by
  rw [dateBefore_false_iff] at h1 h2
  obtain ⟨ay, am, ad⟩ := a
  obtain ⟨by', bm, bd⟩ := b
  simp only [CalendarDate.mk.injEq]
  simp only at h1 h2
  omega

/-! ## Comparator asymmetry -/

theorem charsLt_asymm : ∀ a b : List Char, charsLt a b = true → charsLt b a = false
  | [], [] => by simp [charsLt]
  | [], _ :: _ => by simp [charsLt]
  | _ :: _, [] => by simp [charsLt]
  | x :: xs, y :: ys => by
    intro h
    simp only [charsLt] at h ⊢
    by_cases hxy : x < y
    · have : ¬ y < x := lt_asymm hxy
      simp [this, hxy]
    · by_cases hyx : y < x
      · simp [hxy, hyx] at h
      · simp only [hxy, hyx, ite_false] at h ⊢
        exact charsLt_asymm xs ys h

theorem strLt_asymm (a b : String) (h : strLt a b = true) : strLt b a = false :=
  charsLt_asymm a.data b.data h

theorem dateLess_asymm (a b : String) (h : Questions.dateLess a b = true) :
    Questions.dateLess b a = false := by
  unfold Questions.dateLess at h ⊢
  cases h1 : parseDate a with
  | none =>
    cases h2 : parseDate b with
    | none => simp only [h1, h2] at h ⊢; exact strLt_asymm a b h
    | some d2 => simp only [h1, h2] at h ⊢; exact strLt_asymm a b h
  | some d1 =>
    cases h2 : parseDate b with
    | none => simp only [h1, h2] at h ⊢; exact strLt_asymm a b h
    | some d2 => simp only [h1, h2] at h ⊢; exact dateBefore_asymm d1 d2 h

theorem recordLess_asymm (a b : Studies.StudyRecord)
    (h : Studies.recordLess a b = true) : Studies.recordLess b a = false :=
  dateBefore_asymm _ _ h

/-! ## Canonical form and injectivity of `parseDate` -/

/-- The canonical `DD/MM/YYYY` character sequence of a calendar date; every
string accepted by `parseDate` has exactly this shape (Go's zero-padded
layout `"02/01/2006"` admits no other spelling). -/
def canonicalChars (d : CalendarDate) : List Char :=
  [Char.ofNat (48 + d.day / 10), Char.ofNat (48 + d.day % 10), '/',
   Char.ofNat (48 + d.month / 10), Char.ofNat (48 + d.month % 10), '/',
   Char.ofNat (48 + d.year / 1000), Char.ofNat (48 + d.year / 100 % 10),
   Char.ofNat (48 + d.year / 10 % 10), Char.ofNat (48 + d.year % 10)]

theorem isDigit_bounds (c : Char) (h : c.isDigit = true) :
    48 ≤ c.toNat ∧ c.toNat ≤ 57 := by
  simp [Char.isDigit] at h
  exact h

theorem parseDate_canonical (s : String) (d : CalendarDate)
    (h : parseDate s = some d) : s.data = canonicalChars d := by
  unfold parseDate at h
  split at h
  case h_2 => exact absurd h (by simp)
  case h_1 d1 d2 s1 m1 m2 s2 y1 y2 y3 y4 heq =>
    split_ifs at h with hdig hrange
    · injection h with hd
      subst hd
      obtain ⟨hs1, hs2, hd1, hd2, hm1, hm2, hy1, hy2, hy3, hy4⟩ := hdig
      obtain ⟨bd1l, bd1r⟩ := isDigit_bounds d1 hd1
      obtain ⟨bd2l, bd2r⟩ := isDigit_bounds d2 hd2
      obtain ⟨bm1l, bm1r⟩ := isDigit_bounds m1 hm1
      obtain ⟨bm2l, bm2r⟩ := isDigit_bounds m2 hm2
      obtain ⟨by1l, by1r⟩ := isDigit_bounds y1 hy1
      obtain ⟨by2l, by2r⟩ := isDigit_bounds y2 hy2
      obtain ⟨by3l, by3r⟩ := isDigit_bounds y3 hy3
      obtain ⟨by4l, by4r⟩ := isDigit_bounds y4 hy4
      rw [heq]
      simp only [canonicalChars, digitVal, List.cons.injEq, and_true]
      refine ⟨?_, ?_, hs1, ?_, ?_, hs2, ?_, ?_, ?_, ?_⟩
      all_goals
        first
        | (rw [show 48 + (10 * (d1.toNat - 48) + (d2.toNat - 48)) / 10 = d1.toNat by omega]
           exact (Char.ofNat_toNat d1).symm)
        | (rw [show 48 + (10 * (d1.toNat - 48) + (d2.toNat - 48)) % 10 = d2.toNat by omega]
           exact (Char.ofNat_toNat d2).symm)
        | (rw [show 48 + (10 * (m1.toNat - 48) + (m2.toNat - 48)) / 10 = m1.toNat by omega]
           exact (Char.ofNat_toNat m1).symm)
        | (rw [show 48 + (10 * (m1.toNat - 48) + (m2.toNat - 48)) % 10 = m2.toNat by omega]
           exact (Char.ofNat_toNat m2).symm)
        | (rw [show 48 + (1000 * (y1.toNat - 48) + 100 * (y2.toNat - 48) +
              10 * (y3.toNat - 48) + (y4.toNat - 48)) / 1000 = y1.toNat by omega]
           exact (Char.ofNat_toNat y1).symm)
        | (rw [show 48 + (1000 * (y1.toNat - 48) + 100 * (y2.toNat - 48) +
              10 * (y3.toNat - 48) + (y4.toNat - 48)) / 100 % 10 = y2.toNat by omega]
           exact (Char.ofNat_toNat y2).symm)
        | (rw [show 48 + (1000 * (y1.toNat - 48) + 100 * (y2.toNat - 48) +
              10 * (y3.toNat - 48) + (y4.toNat - 48)) / 10 % 10 = y3.toNat by omega]
           exact (Char.ofNat_toNat y3).symm)
        | (rw [show 48 + (1000 * (y1.toNat - 48) + 100 * (y2.toNat - 48) +
              10 * (y3.toNat - 48) + (y4.toNat - 48)) % 10 = y4.toNat by omega]
           exact (Char.ofNat_toNat y4).symm)

/-- Distinct strings never parse to the same calendar date (zero padding makes
the accepted spelling unique). -/
theorem parseDate_inj {s t : String} {d : CalendarDate}
    (hs : parseDate s = some d) (ht : parseDate t = some d) : s = t :=
  congrArg String.mk
    ((parseDate_canonical s d hs).trans (parseDate_canonical t d ht).symm)

/-! ## Definitional projection lemmas -/

theorem genQ_total_def (qs : List Questions.Question) :
    (Questions.generateStatistics qs).TotalQuestionsCracked =
      (qs.foldl Questions.countQuestion ⟨[], [], [], 0⟩).total := rfl

theorem genQ_perTag_def (qs : List Questions.Question) :
    (Questions.generateStatistics qs).QuestionsCrackedPerTag =
      (qs.foldl Questions.countQuestion ⟨[], [], [], 0⟩).perTag := rfl

theorem genQ_perDay_def (qs : List Questions.Question) :
    (Questions.generateStatistics qs).QuestionsCrackedPerDay =
      ((Questions.getSortedDates
          (qs.foldl Questions.countQuestion ⟨[], [], [], 0⟩).dailyStats).foldl
        (Questions.orderStep (qs.foldl Questions.countQuestion ⟨[], [], [], 0⟩).dailyStats)
        ⟨GoSlice.nilSlice, GoSlice.nilSlice, 0⟩).ordered := rfl

theorem genQ_incremental_def (qs : List Questions.Question) :
    (Questions.generateStatistics qs).IncrementalQuestionsCrackedPerDay =
      ((Questions.getSortedDates
          (qs.foldl Questions.countQuestion ⟨[], [], [], 0⟩).dailyStats).foldl
        (Questions.orderStep (qs.foldl Questions.countQuestion ⟨[], [], [], 0⟩).dailyStats)
        ⟨GoSlice.nilSlice, GoSlice.nilSlice, 0⟩).incremental := rfl

theorem genS_total_def (rs : List Studies.StudyRecord) :
    (Studies.generateStatistics rs).TotalMinutesStudied =
      ((sortByLess Studies.recordLess rs).foldl Studies.statStep
        ⟨[], [], GoSlice.emptySlice, 0⟩).totalMinutesStudied := rfl

theorem genS_perDay_def (rs : List Studies.StudyRecord) :
    (Studies.generateStatistics rs).TotalMinutesPerDay =
      ((sortByLess Studies.recordLess rs).foldl Studies.statStep
        ⟨[], [], GoSlice.emptySlice, 0⟩).totalMinutesPerDay := rfl

theorem genS_mptd_def (rs : List Studies.StudyRecord) :
    (Studies.generateStatistics rs).MinutesPerThemePerDay =
      ((sortByLess Studies.recordLess rs).foldl Studies.statStep
        ⟨[], [], GoSlice.emptySlice, 0⟩).minutesPerThemePerDay := rfl

/-! ## Fold lemmas about the counting loops -/

theorem sum_map_one (l : List Questions.Question) :
    (l.map (fun _ => (1 : Int))).sum = l.length := by
  induction l with
  | nil => simp
  | cons x xs ih => simp [ih]; ring

theorem countFold_total (qs : List Questions.Question) :
    ∀ s : Questions.CountState,
      (qs.foldl Questions.countQuestion s).total = s.total + qs.length := by
  induction qs with
  | nil => intro s; simp
  | cons q rest ih =>
    intro s
    rw [List.foldl_cons, ih]
    show (Questions.countQuestion s q).total + _ = _
    simp [Questions.countQuestion]
    ring

theorem statFold_total (rs : List Studies.StudyRecord) :
    ∀ s : Studies.StatState,
      (rs.foldl Studies.statStep s).totalMinutesStudied =
        s.totalMinutesStudied + (rs.map (·.Minutes)).sum := by
  induction rs with
  | nil => intro s; simp
  | cons r rest ih =>
    intro s
    rw [List.foldl_cons, ih]
    show (Studies.statStep s r).totalMinutesStudied + _ = _
    simp [Studies.statStep]
    ring

theorem tagsFold_getD (tags : List String) :
    ∀ (m : List (String × Int)) (t : String),
      (lookupAssoc t (tags.foldl (fun m tag => bumpAssoc tag 1 m) m)).getD 0 =
        (lookupAssoc t m).getD 0 + tags.count t := by
  induction tags with
  | nil => intro m t; simp
  | cons tag rest ih =>
    intro m t
    rw [List.foldl_cons, ih]
    by_cases h : t = tag
    · subst h
      rw [lookupAssoc_bumpAssoc_self]
      simp [List.count_cons]
      ring
    · rw [lookupAssoc_bumpAssoc_ne t tag 1 m h]
      have : (tag == t) = false := by
        simp [Ne.symm h]
      simp [List.count_cons, this]

theorem countFold_perTag (qs : List Questions.Question) :
    ∀ (s : Questions.CountState) (t : String),
      (lookupAssoc t (qs.foldl Questions.countQuestion s).perTag).getD 0 =
        (lookupAssoc t s.perTag).getD 0 +
          (qs.map (fun q => (q.Tags.count t : Int))).sum := by
  induction qs with
  | nil => intro s t; simp
  | cons q rest ih =>
    intro s t
    rw [List.foldl_cons, ih]
    show (lookupAssoc t (Questions.countQuestion s q).perTag).getD 0 + _ = _
    rw [show (Questions.countQuestion s q).perTag =
      q.Tags.foldl (fun m tag => bumpAssoc tag 1 m) s.perTag from rfl]
    rw [tagsFold_getD]
    simp
    ring

/-! ## Claim theorems (first batch) -/

/-- C1: for both report variants the report's total metric
(`TotalQuestionsCracked` / `TotalMinutesStudied`) equals the sum of all
records' metrics (each question counts 1; each study record counts its
minutes), and the total is invariant under any permutation of the input. -/
theorem C1_total_is_sum_of_metrics :
    ∀ (qs qs' : List Questions.Question) (rs rs' : List Studies.StudyRecord),
      qs.Perm qs' → rs.Perm rs' →
      ((Questions.generateStatistics qs).TotalQuestionsCracked =
          (qs.map (fun _ => (1 : Int))).sum ∧
        (Studies.generateStatistics rs).TotalMinutesStudied =
          (rs.map (·.Minutes)).sum ∧
        (Questions.generateStatistics qs).TotalQuestionsCracked =
          (Questions.generateStatistics qs').TotalQuestionsCracked ∧
        (Studies.generateStatistics rs).TotalMinutesStudied =
          (Studies.generateStatistics rs').TotalMinutesStudied) := by
  have hq : ∀ qs : List Questions.Question,
      (Questions.generateStatistics qs).TotalQuestionsCracked = qs.length := by
    intro qs
    rw [genQ_total_def, countFold_total]
    simp
  have hs : ∀ rs : List Studies.StudyRecord,
      (Studies.generateStatistics rs).TotalMinutesStudied =
        (rs.map (·.Minutes)).sum := by
    intro rs
    rw [genS_total_def, statFold_total]
    have hperm := (perm_sortByLess Studies.recordLess rs).map (·.Minutes)
    rw [hperm.sum_eq]
    simp
  intro qs qs' rs rs' hpq hpr
  refine ⟨?_, hs rs, ?_, ?_⟩
  · rw [hq qs, sum_map_one]
  · rw [hq qs, hq qs', hpq.length_eq]
  · rw [hs rs, hs rs', (hpr.map (·.Minutes)).sum_eq]

/-- Witness for C1 at concrete permuted inputs. -/
theorem C1_total_is_sum_of_metrics_witness :
    (Questions.generateStatistics
        [⟨"a", "01/01/2024", "easy", ["t"]⟩, ⟨"b", "02/01/2024", "hard", []⟩]
      ).TotalQuestionsCracked =
        ([⟨"a", "01/01/2024", "easy", ["t"]⟩,
          (⟨"b", "02/01/2024", "hard", []⟩ : Questions.Question)].map
            (fun _ => (1 : Int))).sum ∧
    (Studies.generateStatistics
        [⟨"02/01/2024", "math", 30⟩, ⟨"03/01/2024", "algo", 10⟩]
      ).TotalMinutesStudied =
        ([⟨"02/01/2024", "math", 30⟩,
          (⟨"03/01/2024", "algo", 10⟩ : Studies.StudyRecord)].map
            (·.Minutes)).sum ∧
    (Questions.generateStatistics
        [⟨"a", "01/01/2024", "easy", ["t"]⟩, ⟨"b", "02/01/2024", "hard", []⟩]
      ).TotalQuestionsCracked =
      (Questions.generateStatistics
        [⟨"b", "02/01/2024", "hard", []⟩, ⟨"a", "01/01/2024", "easy", ["t"]⟩]
      ).TotalQuestionsCracked ∧
    (Studies.generateStatistics
        [⟨"02/01/2024", "math", 30⟩, ⟨"03/01/2024", "algo", 10⟩]
      ).TotalMinutesStudied =
      (Studies.generateStatistics
        [⟨"03/01/2024", "algo", 10⟩, ⟨"02/01/2024", "math", 30⟩]
      ).TotalMinutesStudied :=
  C1_total_is_sum_of_metrics _ _ _ _ (by decide) (by decide)

/-- C7: a record carrying tags `["array", "dp"]` bumps `perTag["array"]` and
`perTag["dp"]` by one each, while the total climbs by exactly one, whatever
records came before it. -/
theorem C7_per_tag_once_per_tag (l : List Questions.Question)
    (name date diff : String) :
    (lookupAssoc "array"
        (Questions.generateStatistics
          (l ++ [⟨name, date, diff, ["array", "dp"]⟩])).QuestionsCrackedPerTag).getD 0 =
      (lookupAssoc "array"
        (Questions.generateStatistics l).QuestionsCrackedPerTag).getD 0 + 1 ∧
    (lookupAssoc "dp"
        (Questions.generateStatistics
          (l ++ [⟨name, date, diff, ["array", "dp"]⟩])).QuestionsCrackedPerTag).getD 0 =
      (lookupAssoc "dp"
        (Questions.generateStatistics l).QuestionsCrackedPerTag).getD 0 + 1 ∧
    (Questions.generateStatistics
        (l ++ [⟨name, date, diff, ["array", "dp"]⟩])).TotalQuestionsCracked =
      (Questions.generateStatistics l).TotalQuestionsCracked + 1 := by
  have htag : ∀ t : String,
      (lookupAssoc t (Questions.generateStatistics
          (l ++ [⟨name, date, diff, ["array", "dp"]⟩])).QuestionsCrackedPerTag).getD 0 =
        (lookupAssoc t (Questions.generateStatistics l).QuestionsCrackedPerTag).getD 0 +
          ((["array", "dp"] : List String).count t : Int) := by
    intro t
    rw [genQ_perTag_def, genQ_perTag_def, countFold_perTag, countFold_perTag]
    simp [List.map_append]
    ring
  refine ⟨?_, ?_, ?_⟩
  · have := htag "array"
    simpa using this
  · have := htag "dp"
    simpa using this
  · rw [genQ_total_def, genQ_total_def, countFold_total, countFold_total]
    simp
    try push_cast
    try ring

/-- C8 counterexample: the metric string `"-5"` cannot be interpreted as a
non-negative integer, yet the ingestion call succeeds and writes `-5`
(`strconv.Atoi` accepts negative integers). -/
theorem C8_counterexample :
    Ingest.putMultipleItemsToDynamoDB [⟨"math", "01/01/2024", "-5"⟩] =
      .ok [⟨"math", "01/01/2024", (-5 : Int)⟩] ∧ (-5 : Int) < 0 := by
  constructor
  · rfl
  · decide

/-- C8 (amended): when some record's metric string is not an integer
(`strconv.Atoi` fails), the whole batched call returns an error — before any
write is issued — and the single-item call errors likewise; negative integers,
however, are accepted. -/
theorem C8_invalid_metric_amended :
    ∀ (studies : List Ingest.Study) (st : Ingest.Study), st ∈ studies →
      Ingest.atoi st.StudyMinutes = none →
      ((∃ msg, Ingest.putMultipleItemsToDynamoDB studies = .error msg) ∧
        Ingest.putItemToDynamoDB st = .error "invalid minutes_of_study") := by
  intro studies st hmem hnone
  constructor
  · induction studies with
    | nil => simp at hmem
    | cons hd rest ih =>
      rcases List.mem_cons.mp hmem with h1 | h2
      · subst h1
        exact ⟨"invalid minutes_of_study", by
          simp [Ingest.putMultipleItemsToDynamoDB, hnone]⟩
      · cases hcase : Ingest.atoi hd.StudyMinutes with
        | none =>
          exact ⟨"invalid minutes_of_study", by
            simp [Ingest.putMultipleItemsToDynamoDB, hcase]⟩
        | some m =>
          obtain ⟨msg, hmsg⟩ := ih h2
          refine ⟨msg, ?_⟩
          simp [Ingest.putMultipleItemsToDynamoDB, hcase, hmsg, Except.map]
  · simp [Ingest.putItemToDynamoDB, hnone]

/-- Witness for C8's amended theorem at a concrete batch. -/
theorem C8_invalid_metric_amended_witness :
    (∃ msg, Ingest.putMultipleItemsToDynamoDB
        [⟨"t", "01/01/2024", "12"⟩, ⟨"t", "02/01/2024", "abc"⟩] = .error msg) ∧
      Ingest.putItemToDynamoDB ⟨"t", "02/01/2024", "abc"⟩ =
        .error "invalid minutes_of_study" :=
  C8_invalid_metric_amended _ _ (by decide) (by decide)

/-- C9 counterexample: on the empty record set the questions report's per-day
and incremental slices are Go `nil` slices (they marshal to JSON `null`), not
present-and-empty collections. -/
theorem C9_counterexample :
    (Questions.generateStatistics []).QuestionsCrackedPerDay.isNil = true ∧
    (Questions.generateStatistics []).IncrementalQuestionsCrackedPerDay.isNil = true := by
  constructor <;> rfl

/-- C9 (amended): an empty record set yields total 0 and empty collections in
both variants; the study report's collections are present (non-nil), while the
questions report's per-day and incremental slices are `nil` and serialize as
JSON `null` rather than as present-but-empty arrays. -/
theorem C9_empty_input_amended :
    Questions.generateStatistics [] =
      ⟨GoSlice.nilSlice, [], [], 0, GoSlice.nilSlice⟩ ∧
    Studies.generateStatistics [] = ⟨0, GoSlice.emptySlice, []⟩ ∧
    (Studies.generateStatistics []).TotalMinutesPerDay.isNil = false := by
  refine ⟨rfl, rfl, rfl⟩

/-! ## The `addToTotalMinutesPerDay` step (C2) -/

theorem updateDay_none (r : Studies.StudyRecord) (l : List Studies.DayStatistic)
    (h : ∀ e ∈ l, e.Date ≠ r.Date) : Studies.updateDay r l = none := by
  induction l with
  | nil => rfl
  | cons e es ih =>
    have hne : e.Date ≠ r.Date := h e (List.mem_cons_self _ _)
    simp only [Studies.updateDay, if_neg hne]
    rw [ih fun e' he' => h e' (List.mem_cons_of_mem _ he')]
    rfl

theorem updateDay_found (r : Studies.StudyRecord) (pre post : List Studies.DayStatistic)
    (e : Studies.DayStatistic) (hpre : ∀ e' ∈ pre, e'.Date ≠ r.Date)
    (he : e.Date = r.Date) :
    Studies.updateDay r (pre ++ e :: post) =
      some (pre ++ ⟨e.Date, e.Minutes + r.Minutes,
        bumpAssoc r.Theme r.Minutes e.Themes⟩ :: post) := by
  induction pre with
  | nil => simp [Studies.updateDay, he]
  | cons p ps ih =>
    have hne : p.Date ≠ r.Date := hpre p (List.mem_cons_self _ _)
    simp only [List.cons_append, Studies.updateDay, if_neg hne, List.append_eq]
    rw [ih fun e' he' => hpre e' (List.mem_cons_of_mem _ he')]
    rfl

/-- C2: one step of the study report's `TotalMinutesPerDay` construction.
If the record's date already has an entry, that (first matching) entry's
minutes grow by the record's minutes (and its per-theme breakdown by the
record's contribution); if the date is new, the appended entry's minutes are
the last existing entry's accumulated minutes plus the record's minutes, and
its per-theme breakdown holds only the record's own contribution. -/
theorem C2_addToTotalMinutesPerDay_step (t : GoSlice Studies.DayStatistic)
    (r : Studies.StudyRecord) :
    (∀ (pre post : List Studies.DayStatistic) (e : Studies.DayStatistic),
        t.data = pre ++ e :: post → (∀ e' ∈ pre, e'.Date ≠ r.Date) →
        e.Date = r.Date →
        (Studies.addToTotalMinutesPerDay t r).data =
          pre ++ ⟨e.Date, e.Minutes + r.Minutes,
            bumpAssoc r.Theme r.Minutes e.Themes⟩ :: post) ∧
    ((∀ e' ∈ t.data, e'.Date ≠ r.Date) →
      ∀ h : t.data ≠ [],
        (Studies.addToTotalMinutesPerDay t r).data =
          t.data ++ [⟨r.Date, (t.data.getLast h).Minutes + r.Minutes,
            [(r.Theme, r.Minutes)]⟩]) := by
  constructor
  · intro pre post e hdata hpre he
    have hup := updateDay_found r pre post e hpre he
    rw [← hdata] at hup
    simp [Studies.addToTotalMinutesPerDay, hup]
  · intro hno h
    have hup := updateDay_none r t.data hno
    simp [Studies.addToTotalMinutesPerDay, hup, GoSlice.push,
      List.getLast?_eq_getLast _ h]

/-- Witness for C2: a same-day record accumulates into the existing entry; a
new-day record appends an entry seeded with the running grand total. -/
theorem C2_addToTotalMinutesPerDay_step_witness :
    (Studies.addToTotalMinutesPerDay ⟨false, [⟨"01/01/2024", 30, [("math", 30)]⟩]⟩
        ⟨"01/01/2024", "algo", 20⟩).data =
      [⟨"01/01/2024", 50, [("math", 30), ("algo", 20)]⟩] ∧
    (Studies.addToTotalMinutesPerDay ⟨false, [⟨"01/01/2024", 30, [("math", 30)]⟩]⟩
        ⟨"02/01/2024", "algo", 20⟩).data =
      [⟨"01/01/2024", 30, [("math", 30)]⟩, ⟨"02/01/2024", 50, [("algo", 20)]⟩] := by
  constructor
  · exact ((C2_addToTotalMinutesPerDay_step ⟨false, [⟨"01/01/2024", 30, [("math", 30)]⟩]⟩
      ⟨"01/01/2024", "algo", 20⟩).1 [] [] ⟨"01/01/2024", 30, [("math", 30)]⟩
      rfl (by simp) rfl).trans (by decide)
  · exact ((C2_addToTotalMinutesPerDay_step ⟨false, [⟨"01/01/2024", 30, [("math", 30)]⟩]⟩
      ⟨"02/01/2024", "algo", 20⟩).2 (by decide) (by decide)).trans (by decide)

/-! ## The ordered/incremental loop of the questions report (C3, C4) -/

/-- Running prefix sums starting from accumulator `a` (the shape taken by
`runningTotal` in the second loop of the questions `generateStatistics`). -/
def prefixSums (a : Int) : List Int → List Int
  | [] => []
  | x :: xs => (a + x) :: prefixSums (a + x) xs

theorem prefixSums_chain (xs : List Int) :
    ∀ a : Int, (∀ x ∈ xs, 0 ≤ x) → List.Chain' (· ≤ ·) (a :: prefixSums a xs) := by
  induction xs with
  | nil => intro a _; simp [prefixSums]
  | cons x rest ih =>
    intro a hx
    simp only [prefixSums]
    refine List.chain'_cons.mpr ⟨?_, ?_⟩
    · have : 0 ≤ x := hx x (List.mem_cons_self _ _)
      omega
    · exact ih (a + x) fun y hy => hx y (List.mem_cons_of_mem _ hy)

theorem prefixSums_getLast? (xs : List Int) :
    ∀ a : Int, xs ≠ [] → (prefixSums a xs).getLast? = some (a + xs.sum) := by
  induction xs with
  | nil => intro a h; exact absurd rfl h
  | cons x rest ih =>
    intro a _
    cases hrest : rest with
    | nil => simp [prefixSums, hrest]
    | cons y ys =>
      subst hrest
      have h2 := ih (a + x) (by simp)
      rw [show prefixSums a (x :: y :: ys) =
        (a + x) :: (a + x + y) :: prefixSums (a + x + y) ys from rfl]
      rw [show prefixSums (a + x) (y :: ys) =
        (a + x + y) :: prefixSums (a + x + y) ys from rfl] at h2
      rw [List.getLast?_cons_cons, h2]
      congr 1
      simp only [List.sum_cons]
      ring

theorem orderFold_ordered_dates (ds : List String) :
    ∀ (s : Questions.OrderState) (m : List (String × Int)),
      ((ds.foldl (Questions.orderStep m) s).ordered).data.map (·.Date) =
        s.ordered.data.map (·.Date) ++ ds := by
  induction ds with
  | nil => intro s m; simp
  | cons d rest ih =>
    intro s m
    rw [List.foldl_cons, ih]
    simp [Questions.orderStep, GoSlice.push]

theorem orderFold_incremental_counts (ds : List String) :
    ∀ (s : Questions.OrderState) (m : List (String × Int)),
      ((ds.foldl (Questions.orderStep m) s).incremental).data.map (·.Count) =
        s.incremental.data.map (·.Count) ++
          prefixSums s.runningTotal (ds.map (fun d => (lookupAssoc d m).getD 0)) := by
  induction ds with
  | nil => intro s m; simp [prefixSums]
  | cons d rest ih =>
    intro s m
    rw [List.foldl_cons, ih]
    simp [Questions.orderStep, GoSlice.push, prefixSums]

theorem countFold_daily_nonneg (qs : List Questions.Question) :
    ∀ s : Questions.CountState, (∀ p ∈ s.dailyStats, 0 ≤ p.2) →
      ∀ p ∈ (qs.foldl Questions.countQuestion s).dailyStats, 0 ≤ p.2 := by
  induction qs with
  | nil => intro s hs; exact hs
  | cons q rest ih =>
    intro s hs
    rw [List.foldl_cons]
    exact ih _ (nonneg_bumpAssoc _ _ _ hs (by omega))

theorem countFold_daily_nodup (qs : List Questions.Question) :
    ∀ s : Questions.CountState, ((s.dailyStats.map Prod.fst).Nodup) →
      (((qs.foldl Questions.countQuestion s).dailyStats.map Prod.fst).Nodup) := by
  induction qs with
  | nil => intro s hs; exact hs
  | cons q rest ih =>
    intro s hs
    rw [List.foldl_cons]
    exact ih _ (nodupKeys_bumpAssoc _ _ _ hs)

theorem countFold_daily_sum (qs : List Questions.Question) :
    ∀ s : Questions.CountState,
      ((qs.foldl Questions.countQuestion s).dailyStats.map Prod.snd).sum =
        (s.dailyStats.map Prod.snd).sum + qs.length := by
  induction qs with
  | nil => intro s; simp
  | cons q rest ih =>
    intro s
    rw [List.foldl_cons, ih]
    show ((bumpAssoc q.Date 1 s.dailyStats).map Prod.snd).sum + _ = _
    rw [sum_bumpAssoc]
    simp only [List.length_cons]
    push_cast
    ring

/-- C3: the questions report's incremental (prefix-sum) per-day series is
monotonically non-decreasing, and its last element equals the report's
total. -/
theorem C3_incremental_series (qs : List Questions.Question) :
    List.Chain' (· ≤ ·)
      ((Questions.generateStatistics qs).IncrementalQuestionsCrackedPerDay.data.map
        (·.Count)) ∧
    ∀ h : (Questions.generateStatistics qs).IncrementalQuestionsCrackedPerDay.data ≠ [],
      ((Questions.generateStatistics
          qs).IncrementalQuestionsCrackedPerDay.data.getLast h).Count =
        (Questions.generateStatistics qs).TotalQuestionsCracked := by
  have hcounts :
      (Questions.generateStatistics qs).IncrementalQuestionsCrackedPerDay.data.map
          (·.Count) =
        prefixSums 0
          ((Questions.getSortedDates
              (qs.foldl Questions.countQuestion ⟨[], [], [], 0⟩).dailyStats).map
            (fun d =>
              (lookupAssoc d
                (qs.foldl Questions.countQuestion ⟨[], [], [], 0⟩).dailyStats).getD 0)) := by
    rw [genQ_incremental_def, orderFold_incremental_counts]
    simp [GoSlice.nilSlice]
  have hnonneg : ∀ p ∈ (qs.foldl Questions.countQuestion ⟨[], [], [], 0⟩).dailyStats,
      0 ≤ p.2 := countFold_daily_nonneg qs _ (by simp)
  constructor
  · rw [hcounts]
    exact (prefixSums_chain _ 0 fun x hx => by
      obtain ⟨d, _, hd⟩ := List.mem_map.mp hx
      rw [← hd]
      exact lookupAssoc_getD_nonneg d _ hnonneg).tail
  · intro h
    have hmapne :
        (Questions.generateStatistics qs).IncrementalQuestionsCrackedPerDay.data.map
          (·.Count) ≠ [] := by simpa using h
    have hlast :
        ((Questions.generateStatistics qs).IncrementalQuestionsCrackedPerDay.data.map
          (·.Count)).getLast? =
        some (((Questions.generateStatistics
          qs).IncrementalQuestionsCrackedPerDay.data.getLast h).Count) := by
      rw [List.getLast?_map, List.getLast?_eq_getLast _ h]
      rfl
    have hdsne :
        (Questions.getSortedDates
            (qs.foldl Questions.countQuestion ⟨[], [], [], 0⟩).dailyStats).map
          (fun d =>
            (lookupAssoc d
              (qs.foldl Questions.countQuestion ⟨[], [], [], 0⟩).dailyStats).getD 0) ≠
          [] := by
      intro hc
      rw [hcounts, hc] at hmapne
      exact hmapne rfl
    rw [hcounts, prefixSums_getLast? _ 0 hdsne] at hlast
    have hsum :
        ((Questions.getSortedDates
            (qs.foldl Questions.countQuestion ⟨[], [], [], 0⟩).dailyStats).map
          (fun d =>
            (lookupAssoc d
              (qs.foldl Questions.countQuestion ⟨[], [], [], 0⟩).dailyStats).getD 0)).sum =
        (Questions.generateStatistics qs).TotalQuestionsCracked := by
      set m := (qs.foldl Questions.countQuestion ⟨[], [], [], 0⟩).dailyStats with hm
      have hperm : ((Questions.getSortedDates m).map
          (fun d => (lookupAssoc d m).getD 0)).Perm
          ((m.map Prod.fst).map (fun d => (lookupAssoc d m).getD 0)) :=
        (perm_sortByLess Questions.dateLess (m.map Prod.fst)).map _
      rw [hperm.sum_eq]
      have hnd : (m.map Prod.fst).Nodup := countFold_daily_nodup qs _ (by simp)
      have := lookups_eq_values m (fun o => o.getD 0) hnd
      rw [this]
      have : (m.map fun p => (some p.2).getD 0) = m.map Prod.snd := by
        simp
      rw [this, countFold_daily_sum]
      rw [genQ_total_def, countFold_total]
      simp
    rw [hsum] at hlast
    have := Option.some.inj hlast
    omega

/-- Witness for C3 at a concrete two-day record set. -/
theorem C3_incremental_series_witness :
    ((Questions.generateStatistics
        [⟨"a", "02/01/2024", "easy", []⟩, ⟨"b", "01/01/2024", "hard", []⟩]
      ).IncrementalQuestionsCrackedPerDay.data.getLast (by decide)).Count =
      (Questions.generateStatistics
        [⟨"a", "02/01/2024", "easy", []⟩, ⟨"b", "01/01/2024", "hard", []⟩]
      ).TotalQuestionsCracked :=
  (C3_incremental_series
    [⟨"a", "02/01/2024", "easy", []⟩, ⟨"b", "01/01/2024", "hard", []⟩]).2 (by decide)

/-! ## Sortedness and stability of the date ordering (C4) -/

theorem chain'_imp_of_mem {α : Type} {S T : α → α → Prop} {P : α → Prop} :
    ∀ {l : List α}, (∀ x ∈ l, P x) → (∀ a b, P a → P b → S a b → T a b) →
      l.Chain' S → l.Chain' T := by
  intro l
  induction l with
  | nil => intro _ _ _; simp
  | cons x xs ih =>
    intro hmem himp hc
    cases xs with
    | nil => simp
    | cons y ys =>
      rw [List.chain'_cons] at hc ⊢
      refine ⟨himp x y (hmem x (by simp)) (hmem y (by simp)) hc.1, ?_⟩
      exact ih (fun z hz => hmem z (List.mem_cons_of_mem _ hz)) himp hc.2

theorem dateLess_eq_of_parse (a b : String) (ha : (parseDate a).isSome = true)
    (hb : (parseDate b).isSome = true) :
    Questions.dateLess a b =
      dateBefore ((parseDate a).getD zeroTime) ((parseDate b).getD zeroTime) := by
  cases h1 : parseDate a with
  | none => rw [h1] at ha; simp at ha
  | some d1 =>
    cases h2 : parseDate b with
    | none => rw [h2] at hb; simp at hb
    | some d2 => simp [Questions.dateLess, h1, h2]

theorem countFold_daily_keys (qs : List Questions.Question) :
    ∀ (s : Questions.CountState) (k : String),
      k ∈ (qs.foldl Questions.countQuestion s).dailyStats.map Prod.fst →
      k ∈ s.dailyStats.map Prod.fst ∨ k ∈ qs.map (·.Date) := by
  induction qs with
  | nil => intro s k hk; exact Or.inl hk
  | cons q rest ih =>
    intro s k hk
    rw [List.foldl_cons] at hk
    rcases ih _ k hk with h | h
    · have h' : k ∈ (bumpAssoc q.Date 1 s.dailyStats).map Prod.fst := h
      rw [keys_bumpAssoc] at h'
      by_cases hmem : q.Date ∈ s.dailyStats.map Prod.fst
      · rw [if_pos hmem] at h'
        exact Or.inl h'
      · rw [if_neg hmem] at h'
        rcases List.mem_append.mp h' with h1 | h1
        · exact Or.inl h1
        · simp only [List.mem_singleton] at h1
          subst h1
          right
          simp
    · right
      simp only [List.map_cons]
      exact List.mem_cons_of_mem _ h

/-- C4: the questions report's per-day sequence is sorted ascending by
calendar date parsed under `DD/MM/YYYY` (whenever all record dates parse);
in particular `"15/01/2024"` sorts before `"01/02/2024"`; and the date sort
is stable — keys that compare equal keep their relative order (stated as
filter preservation for any predicate selecting mutually tied keys). -/
theorem C4_per_day_sorted_and_stable (qs : List Questions.Question) :
    ((∀ q ∈ qs, (parseDate q.Date).isSome = true) →
      List.Pairwise
        (fun a b => dateBefore ((parseDate b).getD zeroTime)
          ((parseDate a).getD zeroTime) = false)
        ((Questions.generateStatistics qs).QuestionsCrackedPerDay.data.map (·.Date))) ∧
    Questions.getSortedDates [("01/02/2024", 1), ("15/01/2024", 1)] =
      ["15/01/2024", "01/02/2024"] ∧
    (∀ (dateMap : List (String × Int)) (p : String → Bool),
      (∀ a ∈ dateMap.map Prod.fst, ∀ b ∈ dateMap.map Prod.fst,
          p a = true → p b = true → Questions.dateLess a b = false) →
      (Questions.getSortedDates dateMap).filter p =
        (dateMap.map Prod.fst).filter p) := by
  refine ⟨?_, by decide, ?_⟩
  · intro hall
    have hdates :
        (Questions.generateStatistics qs).QuestionsCrackedPerDay.data.map (·.Date) =
          Questions.getSortedDates
            (qs.foldl Questions.countQuestion ⟨[], [], [], 0⟩).dailyStats := by
      rw [genQ_perDay_def, orderFold_ordered_dates]
      simp [GoSlice.nilSlice]
    rw [hdates]
    have hparse : ∀ d ∈ Questions.getSortedDates
        (qs.foldl Questions.countQuestion ⟨[], [], [], 0⟩).dailyStats,
        (parseDate d).isSome = true := by
      intro d hd
      have hdk : d ∈ (qs.foldl Questions.countQuestion
          ⟨[], [], [], 0⟩).dailyStats.map Prod.fst :=
        (perm_sortByLess Questions.dateLess _).mem_iff.mp hd
      rcases countFold_daily_keys qs _ d hdk with h | h
      · simp at h
      · obtain ⟨q, hq, hqd⟩ := List.mem_map.mp h
        rw [← hqd]
        exact hall q hq
    have hchain := chain'_sortByLess Questions.dateLess dateLess_asymm
      ((qs.foldl Questions.countQuestion ⟨[], [], [], 0⟩).dailyStats.map Prod.fst)
    have hchainT : (Questions.getSortedDates
        (qs.foldl Questions.countQuestion ⟨[], [], [], 0⟩).dailyStats).Chain'
        (fun a b => dateBefore ((parseDate b).getD zeroTime)
          ((parseDate a).getD zeroTime) = false) := by
      refine chain'_imp_of_mem hparse ?_ hchain
      intro a b ha hb hS
      rw [← dateLess_eq_of_parse b a hb ha]
      exact hS
    exact chain'_pairwise_of_trans
      (T := fun a b => dateBefore ((parseDate b).getD zeroTime)
        ((parseDate a).getD zeroTime) = false)
      (fun a b c h1 h2 => dateBefore_nlt_trans _ _ _ h1 h2) hchainT
  · intro dateMap p hp
    exact filter_sortByLess Questions.dateLess p (dateMap.map Prod.fst) hp

/-- Witness for C4 at concrete inputs: two parseable dates (sortedness
hypothesis discharged), and a tie-selecting predicate on a concrete map. -/
theorem C4_per_day_sorted_and_stable_witness :
    List.Pairwise
      (fun a b => dateBefore ((parseDate b).getD zeroTime)
        ((parseDate a).getD zeroTime) = false)
      ((Questions.generateStatistics
          [⟨"a", "01/02/2024", "easy", []⟩, ⟨"b", "15/01/2024", "hard", []⟩]
        ).QuestionsCrackedPerDay.data.map (·.Date)) ∧
    (Questions.getSortedDates
        [("01/02/2024", 1), ("15/01/2024", 1)]).filter (· == "15/01/2024") =
      ([("01/02/2024", 1), ("15/01/2024", 1)].map Prod.fst).filter
        (· == "15/01/2024") :=
  ⟨(C4_per_day_sorted_and_stable
      [⟨"a", "01/02/2024", "easy", []⟩, ⟨"b", "15/01/2024", "hard", []⟩]).1
      (by decide),
    (C4_per_day_sorted_and_stable []).2.2 [("01/02/2024", 1), ("15/01/2024", 1)]
      (· == "15/01/2024") (by decide)⟩

/-! ## Unparseable dates (C6) -/

theorem countFold_daily_lookup (qs : List Questions.Question) :
    ∀ (s : Questions.CountState) (d : String),
      (lookupAssoc d (qs.foldl Questions.countQuestion s).dailyStats).getD 0 =
        (lookupAssoc d s.dailyStats).getD 0 +
          (qs.filter (fun q => q.Date == d)).length := by
  induction qs with
  | nil => intro s d; simp
  | cons q rest ih =>
    intro s d
    rw [List.foldl_cons, ih]
    by_cases h : q.Date = d
    · have h' : d = q.Date := h.symm
      subst h'
      show (lookupAssoc q.Date (bumpAssoc q.Date 1 s.dailyStats)).getD 0 + _ = _
      rw [lookupAssoc_bumpAssoc_self]
      simp [List.filter_cons]
      ring
    · have h' : d ≠ q.Date := fun hh => h hh.symm
      show (lookupAssoc d (bumpAssoc q.Date 1 s.dailyStats)).getD 0 + _ = _
      rw [lookupAssoc_bumpAssoc_ne d q.Date 1 _ h']
      have : (q.Date == d) = false := by simp [h]
      simp [List.filter_cons, this]

/-- C6 counterexample: in the study report's record ordering, the pair made of
the unparseable date `"zzz"` and `"01/01/2024"` is NOT ordered by byte-wise
string comparison: the code treats `"zzz"` as the zero `time.Time` and sorts
it first, while string comparison would sort `"01/01/2024"` first. -/
theorem C6_counterexample :
    Studies.recordLess ⟨"zzz", "t", 5⟩ ⟨"01/01/2024", "t", 7⟩ = true ∧
    strLt "zzz" "01/01/2024" = false ∧
    strLt "01/01/2024" "zzz" = true ∧
    sortByLess Studies.recordLess [⟨"01/01/2024", "t", 7⟩, ⟨"zzz", "t", 5⟩] =
      [⟨"zzz", "t", 5⟩, ⟨"01/01/2024", "t", 7⟩] := by
  refine ⟨rfl, rfl, rfl, rfl⟩

/-- C6 (amended): aggregation never fails on an unparseable date — the
record's metric is still counted in its per-day bucket under the literal
string key (and hence in the total, which counts every record). In the questions report's day
ordering, a pair with an unparseable member degrades to byte-wise string
comparison; in the study report's ordering the parse error is discarded
instead, so an unparseable date compares as the zero `time.Time`. -/
theorem C6_unparseable_dates_amended :
    ∀ (qs : List Questions.Question) (d : String) (a b : String)
      (r1 r2 : Studies.StudyRecord),
      ((lookupAssoc d
          (qs.foldl Questions.countQuestion ⟨[], [], [], 0⟩).dailyStats).getD 0 =
        (qs.filter (fun q => q.Date == d)).length) ∧
      (parseDate a = none ∨ parseDate b = none →
        Questions.dateLess a b = strLt a b) ∧
      (parseDate r1.Date = none →
        Studies.recordLess r1 r2 =
          dateBefore zeroTime ((parseDate r2.Date).getD zeroTime)) := by
  intro qs d a b r1 r2
  refine ⟨?_, ?_, ?_⟩
  · rw [countFold_daily_lookup]
    simp [lookupAssoc]
  · intro hfail
    rcases hfail with h | h
    · cases h2 : parseDate b <;> simp [Questions.dateLess, h, h2]
    · cases h1 : parseDate a <;> simp [Questions.dateLess, h, h1]
  · intro hfail
    simp [Studies.recordLess, hfail]

/-- Witness for C6's amended theorem: a `"not-a-date"` record is counted under
its literal key; both degraded comparator behaviors at unparseable inputs. -/
theorem C6_unparseable_dates_amended_witness :
    ((lookupAssoc "not-a-date"
        ([⟨"q1", "not-a-date", "easy", []⟩,
          (⟨"q2", "02/01/2024", "hard", []⟩ : Questions.Question)].foldl
          Questions.countQuestion ⟨[], [], [], 0⟩).dailyStats).getD 0 =
      ([⟨"q1", "not-a-date", "easy", []⟩,
        (⟨"q2", "02/01/2024", "hard", []⟩ : Questions.Question)].filter
          (fun q => q.Date == "not-a-date")).length) ∧
    Questions.dateLess "not-a-date" "02/01/2024" = strLt "not-a-date" "02/01/2024" ∧
    Studies.recordLess ⟨"zzz", "t", 5⟩ ⟨"02/01/2024", "t", 7⟩ =
      dateBefore zeroTime ((parseDate "02/01/2024").getD zeroTime) := by
  have h := C6_unparseable_dates_amended
    [⟨"q1", "not-a-date", "easy", []⟩, ⟨"q2", "02/01/2024", "hard", []⟩]
    "not-a-date" "not-a-date" "02/01/2024" ⟨"zzz", "t", 5⟩ ⟨"02/01/2024", "t", 7⟩
  exact ⟨h.1, h.2.1 (Or.inl (by decide)), h.2.2 (by decide)⟩

/-! ## Invariants of the study per-day fold (C10, C5) -/

/-- `(parseDate s).getD zeroTime`: the `time.Time` the study comparator
actually uses for the string `s` (parse errors yield the zero time). -/
def forceParse (s : String) : CalendarDate := (parseDate s).getD zeroTime

/-- Minutes of the last per-day entry, `0` when there is none (the value Go's
`previousDayMinutes` takes). -/
def lastMinutes (d : List Studies.DayStatistic) : Int :=
  ((d.getLast?).map (·.Minutes)).getD 0

theorem forceParse_inj (a b : String) (ha : (parseDate a).isSome = true)
    (hb : (parseDate b).isSome = true) (h : forceParse a = forceParse b) : a = b := by
  obtain ⟨va, hva⟩ := Option.isSome_iff_exists.mp ha
  obtain ⟨vb, hvb⟩ := Option.isSome_iff_exists.mp hb
  rw [forceParse, forceParse, hva, hvb] at h
  simp at h
  subst h
  exact parseDate_inj hva hvb

theorem chain'_le_concat_mono (xs : List Int) (a b : Int)
    (h : List.Chain' (· ≤ ·) (xs ++ [a])) (hab : a ≤ b) :
    List.Chain' (· ≤ ·) (xs ++ [b]) := by
  rw [List.chain'_append] at h ⊢
  obtain ⟨h1, _, h3⟩ := h
  refine ⟨h1, List.chain'_singleton b, ?_⟩
  intro x hx y hy
  simp only [List.head?_cons, Option.mem_def, Option.some.injEq] at hy
  subst hy
  have := h3 x hx a (by simp)
  omega

theorem chain'_le_concat (xs : List Int) (b : Int)
    (h : List.Chain' (· ≤ ·) xs) (hb : ∀ x ∈ xs.getLast?, x ≤ b) :
    List.Chain' (· ≤ ·) (xs ++ [b]) := by
  rw [List.chain'_append]
  refine ⟨h, List.chain'_singleton b, ?_⟩
  intro x hx y hy
  simp only [List.head?_cons, Option.mem_def, Option.some.injEq] at hy
  subst hy
  exact hb x hx

/-- One `addToTotalMinutesPerDay` step preserves the per-day invariants when
the incoming record's (parseable) date is at least every date already present:
the date list is unchanged or extended by the record's date, the minutes
remain non-decreasing, and the last entry absorbs exactly the record's
minutes. -/
theorem addTo_step_invariant (g : GoSlice Studies.DayStatistic)
    (r : Studies.StudyRecord)
    (hnr : 0 ≤ r.Minutes)
    (hasc : List.Pairwise (fun a b => dateBefore (forceParse a) (forceParse b) = true)
      (g.data.map (·.Date)))
    (hch : List.Chain' (· ≤ ·) (g.data.map (·.Minutes)))
    (hcross : ∀ d ∈ g.data.map (·.Date),
      dateBefore (forceParse r.Date) (forceParse d) = false) :
    ((Studies.addToTotalMinutesPerDay g r).data.map (·.Date) =
        g.data.map (·.Date) ∨
      ((Studies.addToTotalMinutesPerDay g r).data.map (·.Date) =
          g.data.map (·.Date) ++ [r.Date] ∧
        r.Date ∉ g.data.map (·.Date))) ∧
    List.Chain' (· ≤ ·) ((Studies.addToTotalMinutesPerDay g r).data.map (·.Minutes)) ∧
    lastMinutes (Studies.addToTotalMinutesPerDay g r).data =
      lastMinutes g.data + r.Minutes := by
  by_cases hmatch : ∃ e ∈ g.data, e.Date = r.Date
  · -- the record's date is already present; the matching entry is the last one
    obtain ⟨e, he, hed⟩ := hmatch
    have hne : g.data ≠ [] := List.ne_nil_of_mem he
    have hsplit : g.data.dropLast ++ [g.data.getLast hne] = g.data :=
      List.dropLast_append_getLast hne
    have hdates : g.data.map (·.Date) =
        g.data.dropLast.map (·.Date) ++ [(g.data.getLast hne).Date] := by
      conv_lhs => rw [← hsplit]
      simp
    have hminutes : g.data.map (·.Minutes) =
        g.data.dropLast.map (·.Minutes) ++ [(g.data.getLast hne).Minutes] := by
      conv_lhs => rw [← hsplit]
      simp
    have hasc' := hasc
    rw [hdates, List.pairwise_append] at hasc'
    have hdroplt : ∀ e' ∈ g.data.dropLast,
        dateBefore (forceParse e'.Date)
          (forceParse (g.data.getLast hne).Date) = true := by
      intro e' he'
      exact hasc'.2.2 e'.Date (List.mem_map_of_mem _ he') _ (by simp)
    have hlastcross :
        dateBefore (forceParse r.Date)
          (forceParse (g.data.getLast hne).Date) = false := by
      refine hcross _ ?_
      rw [hdates]
      simp
    have hpre : ∀ e' ∈ g.data.dropLast, e'.Date ≠ r.Date := by
      intro e' he' hda
      have hlt := hdroplt e' he'
      rw [hda] at hlt
      rw [hlastcross] at hlt
      exact absurd hlt (by simp)
    have hlastdate : (g.data.getLast hne).Date = r.Date := by
      rw [← hsplit] at he
      rcases List.mem_append.mp he with h1 | h1
      · exact absurd hed (hpre e h1)
      · simp only [List.mem_singleton] at h1
        rw [← h1]
        exact hed
    have hup :
        Studies.updateDay r g.data =
          some (g.data.dropLast ++
            [⟨(g.data.getLast hne).Date,
              (g.data.getLast hne).Minutes + r.Minutes,
              bumpAssoc r.Theme r.Minutes (g.data.getLast hne).Themes⟩]) := by
      conv_lhs => rw [← hsplit]
      exact updateDay_found r _ [] _ hpre hlastdate
    have hadd : (Studies.addToTotalMinutesPerDay g r).data =
        g.data.dropLast ++
          [⟨(g.data.getLast hne).Date,
            (g.data.getLast hne).Minutes + r.Minutes,
            bumpAssoc r.Theme r.Minutes (g.data.getLast hne).Themes⟩] := by
      simp [Studies.addToTotalMinutesPerDay, hup]
    refine ⟨Or.inl ?_, ?_, ?_⟩
    · rw [hadd, hdates]
      simp
    · rw [hadd]
      have hm2 : ((g.data.dropLast ++
          [(⟨(g.data.getLast hne).Date, (g.data.getLast hne).Minutes + r.Minutes,
            bumpAssoc r.Theme r.Minutes (g.data.getLast hne).Themes⟩ :
              Studies.DayStatistic)]).map (fun x => x.Minutes)) =
          g.data.dropLast.map (fun x => x.Minutes) ++
            [(g.data.getLast hne).Minutes + r.Minutes] := by
        simp
      rw [hm2]
      refine chain'_le_concat_mono _ (g.data.getLast hne).Minutes _ ?_ (by omega)
      rw [← hminutes]
      exact hch
    · rw [hadd]
      simp [lastMinutes, List.getLast?_concat, List.getLast?_eq_getLast _ hne]
  · -- new date: a fresh entry is appended, seeded with the last entry's total
    have hno : ∀ e ∈ g.data, e.Date ≠ r.Date := by
      intro e he hda
      exact hmatch ⟨e, he, hda⟩
    have hup := updateDay_none r g.data hno
    have hadd : (Studies.addToTotalMinutesPerDay g r).data =
        g.data ++ [⟨r.Date, lastMinutes g.data + r.Minutes,
          [(r.Theme, r.Minutes)]⟩] := by
      simp [Studies.addToTotalMinutesPerDay, hup, GoSlice.push, lastMinutes]
    refine ⟨Or.inr ⟨?_, ?_⟩, ?_, ?_⟩
    · rw [hadd]
      simp
    · intro hmem
      obtain ⟨e, he, hda⟩ := List.mem_map.mp hmem
      exact hno e he hda
    · rw [hadd, List.map_append]
      refine chain'_le_concat _ _ hch ?_
      intro x hx
      rw [List.getLast?_map] at hx
      cases hgl : g.data.getLast? with
      | none => rw [hgl] at hx; simp at hx
      | some e =>
        rw [hgl] at hx
        simp at hx
        subst hx
        have : lastMinutes g.data = e.Minutes := by
          simp [lastMinutes, hgl]
        show e.Minutes ≤ lastMinutes g.data + r.Minutes
        omega
    · rw [hadd]
      simp [lastMinutes, List.getLast?_concat]

theorem statFold_perDay (l : List Studies.StudyRecord) :
    ∀ s : Studies.StatState,
      (l.foldl Studies.statStep s).totalMinutesPerDay =
        l.foldl Studies.addToTotalMinutesPerDay s.totalMinutesPerDay := by
  induction l with
  | nil => intro s; rfl
  | cons r rest ih =>
    intro s
    rw [List.foldl_cons, List.foldl_cons, ih]
    rfl

/-- Folding `addToTotalMinutesPerDay` over a date-sorted, all-parseable,
non-negative record list keeps the per-day minutes non-decreasing and makes
the last entry carry the running grand total. -/
theorem addToFold_invariant :
    ∀ (l : List Studies.StudyRecord) (g : GoSlice Studies.DayStatistic),
      (∀ r ∈ l, (parseDate r.Date).isSome = true) →
      (∀ r ∈ l, 0 ≤ r.Minutes) →
      List.Pairwise (fun a b : Studies.StudyRecord =>
        dateBefore (forceParse b.Date) (forceParse a.Date) = false) l →
      (∀ d ∈ g.data.map (·.Date), (parseDate d).isSome = true) →
      List.Pairwise (fun a b => dateBefore (forceParse a) (forceParse b) = true)
        (g.data.map (·.Date)) →
      List.Chain' (· ≤ ·) (g.data.map (·.Minutes)) →
      (∀ r ∈ l, ∀ d ∈ g.data.map (·.Date),
        dateBefore (forceParse r.Date) (forceParse d) = false) →
      (List.Chain' (· ≤ ·)
          ((l.foldl Studies.addToTotalMinutesPerDay g).data.map (·.Minutes)) ∧
        lastMinutes (l.foldl Studies.addToTotalMinutesPerDay g).data =
          lastMinutes g.data + (l.map (·.Minutes)).sum) := by
  intro l
  induction l with
  | nil =>
    intro g _ _ _ _ _ hch _
    exact ⟨hch, by simp⟩
  | cons r rest ih =>
    intro g hp hn hsort hpg hasc hch hcross
    have hrmem : r ∈ r :: rest := List.mem_cons_self _ _
    obtain ⟨hshape, hchain', hlast'⟩ :=
      addTo_step_invariant g r (hn r hrmem) hasc hch
        (fun d hd => hcross r hrmem d hd)
    have hsorttail := (List.pairwise_cons.mp hsort).2
    have hsorthead := (List.pairwise_cons.mp hsort).1
    have hpg' : ∀ d ∈ (Studies.addToTotalMinutesPerDay g r).data.map (·.Date),
        (parseDate d).isSome = true := by
      rcases hshape with heq | ⟨heq, _⟩
      · rw [heq]; exact hpg
      · rw [heq]
        intro d hd
        rcases List.mem_append.mp hd with h1 | h1
        · exact hpg d h1
        · simp only [List.mem_singleton] at h1
          subst h1
          exact hp r hrmem
    have hasc' : List.Pairwise
        (fun a b => dateBefore (forceParse a) (forceParse b) = true)
        ((Studies.addToTotalMinutesPerDay g r).data.map (·.Date)) := by
      rcases hshape with heq | ⟨heq, hfresh⟩
      · rw [heq]; exact hasc
      · rw [heq]
        rw [List.pairwise_append]
        refine ⟨hasc, List.pairwise_singleton _ _, ?_⟩
        intro d hd b hb
        simp only [List.mem_singleton] at hb
        subst hb
        cases hlt : dateBefore (forceParse d) (forceParse r.Date) with
        | true => rfl
        | false =>
          exfalso
          have hr := hcross r hrmem d hd
          have heqd := dateBefore_antisymm _ _ hlt hr
          exact hfresh (by
            rw [forceParse_inj d r.Date (hpg d hd) (hp r hrmem) heqd] at hd
            exact hd)
    have hcross' : ∀ r' ∈ rest,
        ∀ d ∈ (Studies.addToTotalMinutesPerDay g r).data.map (·.Date),
        dateBefore (forceParse r'.Date) (forceParse d) = false := by
      intro r' hr' d hd
      rcases hshape with heq | ⟨heq, _⟩
      · rw [heq] at hd
        exact hcross r' (List.mem_cons_of_mem _ hr') d hd
      · rw [heq] at hd
        rcases List.mem_append.mp hd with h1 | h1
        · exact hcross r' (List.mem_cons_of_mem _ hr') d h1
        · simp only [List.mem_singleton] at h1
          subst h1
          exact hsorthead r' hr'
    have hrec := ih (Studies.addToTotalMinutesPerDay g r)
      (fun r' hr' => hp r' (List.mem_cons_of_mem _ hr'))
      (fun r' hr' => hn r' (List.mem_cons_of_mem _ hr'))
      hsorttail hpg' hasc' hchain' hcross'
    rw [List.foldl_cons]
    refine ⟨hrec.1, ?_⟩
    rw [hrec.2, hlast']
    simp only [List.map_cons, List.sum_cons]
    ring

/-- C10: when every study record's date parses under `DD/MM/YYYY` and every
metric is non-negative, the `TotalMinutesPerDay` series has non-decreasing
minutes, and (whenever it is non-empty) its final entry's minutes equal
`TotalMinutesStudied` — the running-grand-total quirk makes the last day's
value the global total. -/
theorem C10_study_per_day_running_total (records : List Studies.StudyRecord)
    (hparse : ∀ r ∈ records, (parseDate r.Date).isSome = true)
    (hnn : ∀ r ∈ records, 0 ≤ r.Minutes) :
    List.Chain' (· ≤ ·)
      ((Studies.generateStatistics records).TotalMinutesPerDay.data.map
        (·.Minutes)) ∧
    ∀ h : (Studies.generateStatistics records).TotalMinutesPerDay.data ≠ [],
      ((Studies.generateStatistics records).TotalMinutesPerDay.data.getLast
        h).Minutes = (Studies.generateStatistics records).TotalMinutesStudied := by
  have hperm := perm_sortByLess Studies.recordLess records
  have hp_s : ∀ r ∈ sortByLess Studies.recordLess records,
      (parseDate r.Date).isSome = true :=
    fun r hr => hparse r (hperm.mem_iff.mp hr)
  have hn_s : ∀ r ∈ sortByLess Studies.recordLess records, 0 ≤ r.Minutes :=
    fun r hr => hnn r (hperm.mem_iff.mp hr)
  have hchain : (sortByLess Studies.recordLess records).Chain'
      (fun a b : Studies.StudyRecord =>
        dateBefore (forceParse b.Date) (forceParse a.Date) = false) :=
    chain'_sortByLess Studies.recordLess recordLess_asymm records
  have hsort : (sortByLess Studies.recordLess records).Pairwise
      (fun a b : Studies.StudyRecord =>
        dateBefore (forceParse b.Date) (forceParse a.Date) = false) :=
    chain'_pairwise_of_trans
      (T := fun a b : Studies.StudyRecord =>
        dateBefore (forceParse b.Date) (forceParse a.Date) = false)
      (fun a b c h1 h2 => dateBefore_nlt_trans _ _ _ h1 h2) hchain
  have hfold := addToFold_invariant (sortByLess Studies.recordLess records)
    GoSlice.emptySlice hp_s hn_s hsort (by simp [GoSlice.emptySlice])
    (by simp [GoSlice.emptySlice]) (by simp [GoSlice.emptySlice])
    (by simp [GoSlice.emptySlice])
  have hdataeq : (Studies.generateStatistics records).TotalMinutesPerDay =
      (sortByLess Studies.recordLess records).foldl
        Studies.addToTotalMinutesPerDay GoSlice.emptySlice := by
    rw [genS_perDay_def, statFold_perDay]
  constructor
  · rw [hdataeq]
    exact hfold.1
  · intro h
    have hlasteq : lastMinutes
        (Studies.generateStatistics records).TotalMinutesPerDay.data =
        ((Studies.generateStatistics
          records).TotalMinutesPerDay.data.getLast h).Minutes := by
      simp [lastMinutes, List.getLast?_eq_getLast _ h]
    rw [← hlasteq, hdataeq]
    rw [hfold.2]
    rw [genS_total_def, statFold_total]
    simp [GoSlice.emptySlice, lastMinutes]

/-- Witness for C10 at the concrete three-record scenario. -/
theorem C10_study_per_day_running_total_witness :
    List.Chain' (· ≤ ·)
      ((Studies.generateStatistics
          [⟨"02/01/2024", "math", 30⟩, ⟨"02/01/2024", "algo", 20⟩,
           ⟨"03/01/2024", "math", 10⟩]).TotalMinutesPerDay.data.map
        (·.Minutes)) ∧
    ((Studies.generateStatistics
        [⟨"02/01/2024", "math", 30⟩, ⟨"02/01/2024", "algo", 20⟩,
         ⟨"03/01/2024", "math", 10⟩]).TotalMinutesPerDay.data.getLast
      (by decide)).Minutes =
      (Studies.generateStatistics
        [⟨"02/01/2024", "math", 30⟩, ⟨"02/01/2024", "algo", 20⟩,
         ⟨"03/01/2024", "math", 10⟩]).TotalMinutesStudied :=
  ⟨(C10_study_per_day_running_total _ (by decide) (by decide)).1,
    (C10_study_per_day_running_total _ (by decide) (by decide)).2 (by decide)⟩

/-! ## Per-theme cumulative map characterization (C5) -/

theorem dateBefore_irrefl (a : CalendarDate) : dateBefore a a = false := by
  rw [dateBefore_false_iff]
  omega

/-- Cumulative minutes a theme has accumulated over a processed record list
(`none` when the theme never occurs — the Go map has no such key). -/
def themeVal (pro : List Studies.StudyRecord) (t : String) : Option Int :=
  if pro.any (fun r => r.Theme == t) then
    some (((pro.filter (fun r => r.Theme == t)).map (·.Minutes)).sum)
  else none

/-- The value `minutesPerThemePerDay[t][d]` holds after processing `pro` in
date order: the running sum of theme `t`'s minutes over all its records dated
up to and including `d`, present exactly when `t` has a record dated `d`. -/
def mptdVal (pro : List Studies.StudyRecord) (t d : String) : Option Int :=
  if pro.any (fun r => r.Theme == t && r.Date == d) then
    some (((pro.filter (fun r => r.Theme == t &&
      !dateBefore (forceParse d) (forceParse r.Date))).map (·.Minutes)).sum)
  else none

/-- `minutesPerThemePerDay[t][d]` as read from the accumulator state. -/
def innerLookup (s : Studies.StatState) (t d : String) : Option Int :=
  lookupAssoc d ((lookupAssoc t s.minutesPerThemePerDay).getD [])

theorem themeVal_getD (pro : List Studies.StudyRecord) (t : String) :
    (themeVal pro t).getD 0 =
      ((pro.filter (fun r => r.Theme == t)).map (·.Minutes)).sum := by
  unfold themeVal
  by_cases h : pro.any (fun r => r.Theme == t) = true
  · simp [h]
  · have hfilter : pro.filter (fun r => r.Theme == t) = [] := by
      rw [List.filter_eq_nil_iff]
      intro r hr hc
      exact h (List.any_eq_true.mpr ⟨r, hr, hc⟩)
    simp [h, hfilter]

theorem themeVal_append (pro : List Studies.StudyRecord) (r : Studies.StudyRecord)
    (t : String) :
    themeVal (pro ++ [r]) t =
      if r.Theme = t then some ((themeVal pro t).getD 0 + r.Minutes)
      else themeVal pro t := by
  by_cases h : r.Theme = t
  · rw [if_pos h, themeVal_getD]
    unfold themeVal
    have hany : (pro ++ [r]).any (fun r => r.Theme == t) = true := by
      rw [List.any_append]
      simp [h]
    rw [if_pos hany, List.filter_append]
    simp [h, List.filter_cons, List.sum_append]
  · have hr : (r.Theme == t) = false := by simp [h]
    rw [if_neg h]
    unfold themeVal
    rw [List.any_append, List.filter_append]
    simp [hr]

theorem mptdVal_append_ne_theme (pro : List Studies.StudyRecord)
    (r : Studies.StudyRecord) (t d : String) (h : r.Theme ≠ t) :
    mptdVal (pro ++ [r]) t d = mptdVal pro t d := by
  have hr : (r.Theme == t) = false := by simp [h]
  unfold mptdVal
  rw [List.any_append, List.filter_append]
  simp [hr]

theorem mptdVal_append_same_date (pro : List Studies.StudyRecord)
    (r : Studies.StudyRecord)
    (hsorted : ∀ r' ∈ pro, dateBefore (forceParse r.Date) (forceParse r'.Date) = false) :
    mptdVal (pro ++ [r]) r.Theme r.Date =
      some ((themeVal pro r.Theme).getD 0 + r.Minutes) := by
  unfold mptdVal
  have hany : (pro ++ [r]).any (fun x => x.Theme == r.Theme && x.Date == r.Date) = true := by
    rw [List.any_append]
    simp
  rw [if_pos hany, List.filter_append]
  have hrpass : (r.Theme == r.Theme &&
      !dateBefore (forceParse r.Date) (forceParse r.Date)) = true := by
    rw [dateBefore_irrefl]
    simp
  have hfilter_r : [r].filter (fun x => x.Theme == r.Theme &&
      !dateBefore (forceParse r.Date) (forceParse x.Date)) = [r] := by
    simp only [List.filter_cons, List.filter_nil, hrpass]
    simp
  rw [hfilter_r]
  have hfilter_pro : pro.filter (fun x => x.Theme == r.Theme &&
      !dateBefore (forceParse r.Date) (forceParse x.Date)) =
      pro.filter (fun x => x.Theme == r.Theme) := by
    apply List.filter_congr
    intro x hx
    have := hsorted x hx
    simp [this]
  rw [hfilter_pro, themeVal_getD]
  simp

theorem mptdVal_append_other_date (pro : List Studies.StudyRecord)
    (r : Studies.StudyRecord) (d : String) (hd : d ≠ r.Date)
    (hparse : ∀ r' ∈ pro ++ [r], (parseDate r'.Date).isSome = true)
    (hdparse : ∀ r' ∈ pro, r'.Date = d → (parseDate d).isSome = true)
    (hsorted : ∀ r' ∈ pro, dateBefore (forceParse r.Date) (forceParse r'.Date) = false) :
    mptdVal (pro ++ [r]) r.Theme d = mptdVal pro r.Theme d := by
  have hrd : (r.Date == d) = false := by
    have hne : r.Date ≠ d := fun hh => hd hh.symm
    simp [hne]
  unfold mptdVal
  rw [List.any_append, List.filter_append]
  have hany_r : [r].any (fun x => x.Theme == r.Theme && x.Date == d) = false := by
    simp [hrd]
  by_cases hany : pro.any (fun x => x.Theme == r.Theme && x.Date == d) = true
  · -- some record of this theme is dated `d`; `r` is strictly later, so the
    -- singleton contributes nothing to the cumulative sum at `d`
    obtain ⟨r0, hr0, hr0p⟩ := List.any_eq_true.mp hany
    rw [Bool.and_eq_true, beq_iff_eq, beq_iff_eq] at hr0p
    have hr0d : r0.Date = d := hr0p.2
    have hstrict : dateBefore (forceParse d) (forceParse r.Date) = true := by
      cases hc : dateBefore (forceParse d) (forceParse r.Date) with
      | true => rfl
      | false =>
        exfalso
        have h1 : dateBefore (forceParse r.Date) (forceParse d) = false := by
          have := hsorted r0 hr0
          rw [hr0d] at this
          exact this
        have heq := dateBefore_antisymm _ _ hc h1
        have hdp : (parseDate d).isSome = true := hdparse r0 hr0 hr0d
        have hrp : (parseDate r.Date).isSome = true :=
          hparse r (by simp)
        exact hd (forceParse_inj d r.Date hdp hrp heq)
    have hfilter_r : [r].filter (fun x => x.Theme == r.Theme &&
        !dateBefore (forceParse d) (forceParse x.Date)) = [] := by
      simp [List.filter_cons, hstrict]
    rw [hfilter_r, hany_r]
    simp [hany]
  · have hany' : pro.any (fun x => x.Theme == r.Theme && x.Date == d) = false := by
      cases hq : pro.any (fun x => x.Theme == r.Theme && x.Date == d) with
      | false => rfl
      | true => exact absurd hq hany
    rw [hany', hany_r]
    simp

theorem statStep_tm_def (s : Studies.StatState) (r : Studies.StudyRecord) :
    (Studies.statStep s r).themeMinutes =
      bumpAssoc r.Theme r.Minutes s.themeMinutes := rfl

theorem statStep_mptd_def (s : Studies.StatState) (r : Studies.StudyRecord) :
    (Studies.statStep s r).minutesPerThemePerDay =
      setAssoc r.Theme
        (setAssoc r.Date
          ((lookupAssoc r.Theme (bumpAssoc r.Theme r.Minutes s.themeMinutes)).getD 0)
          ((lookupAssoc r.Theme s.minutesPerThemePerDay).getD []))
        s.minutesPerThemePerDay := rfl

/-- Folding the study accumulation loop over a date-sorted, all-parseable
record list keeps `themeMinutes` and `minutesPerThemePerDay` exactly
characterized by `themeVal` / `mptdVal`, with duplicate-free keys. -/
theorem statFold_mptd :
    ∀ (l pro : List Studies.StudyRecord) (s : Studies.StatState),
      (∀ r ∈ pro ++ l, (parseDate r.Date).isSome = true) →
      (pro ++ l).Pairwise (fun a b =>
        dateBefore (forceParse b.Date) (forceParse a.Date) = false) →
      (∀ t, lookupAssoc t s.themeMinutes = themeVal pro t) →
      (∀ t d, innerLookup s t d = mptdVal pro t d) →
      ((s.minutesPerThemePerDay.map Prod.fst).Nodup) →
      (∀ t, (((lookupAssoc t s.minutesPerThemePerDay).getD
        []).map Prod.fst).Nodup) →
      ((∀ t, lookupAssoc t (l.foldl Studies.statStep s).themeMinutes =
          themeVal (pro ++ l) t) ∧
        (∀ t d, innerLookup (l.foldl Studies.statStep s) t d =
          mptdVal (pro ++ l) t d) ∧
        (((l.foldl Studies.statStep s).minutesPerThemePerDay.map Prod.fst).Nodup) ∧
        (∀ t, (((lookupAssoc t
          (l.foldl Studies.statStep s).minutesPerThemePerDay).getD
            []).map Prod.fst).Nodup)) := by
  intro l
  induction l with
  | nil =>
    intro pro s _ _ hTM hMP hnd1 hnd2
    simpa using ⟨hTM, hMP, hnd1, hnd2⟩
  | cons r rest ih =>
    intro pro s hparse hsort hTM hMP hnd1 hnd2
    have hsorted_pre : ∀ r' ∈ pro,
        dateBefore (forceParse r.Date) (forceParse r'.Date) = false := by
      intro r' hr'
      exact (List.pairwise_append.mp hsort).2.2 r' hr' r (by simp)
    have hparse_pre : ∀ r' ∈ pro ++ [r], (parseDate r'.Date).isSome = true := by
      intro r' hr'
      rcases List.mem_append.mp hr' with h1 | h1
      · exact hparse r' (List.mem_append.mpr (Or.inl h1))
      · simp only [List.mem_singleton] at h1
        subst h1
        exact hparse r' (List.mem_append.mpr (Or.inr (by simp)))
    have hTM' : ∀ t, lookupAssoc t (Studies.statStep s r).themeMinutes =
        themeVal (pro ++ [r]) t := by
      intro t
      rw [statStep_tm_def, themeVal_append]
      by_cases h : r.Theme = t
      · subst h
        rw [lookupAssoc_bumpAssoc_self, hTM]
        simp
      · rw [lookupAssoc_bumpAssoc_ne t r.Theme _ _ (fun hh => h hh.symm), hTM t,
          if_neg h]
    have hMP' : ∀ t d, innerLookup (Studies.statStep s r) t d =
        mptdVal (pro ++ [r]) t d := by
      intro t d
      simp only [innerLookup, statStep_mptd_def]
      by_cases h : r.Theme = t
      · subst h
        rw [lookupAssoc_setAssoc_self]
        simp only [Option.getD_some]
        by_cases hd : r.Date = d
        · subst hd
          rw [lookupAssoc_setAssoc_self, mptdVal_append_same_date pro r hsorted_pre]
          rw [lookupAssoc_bumpAssoc_self, hTM]
          simp
        · rw [lookupAssoc_setAssoc_ne d r.Date _ _ (fun hh => hd hh.symm)]
          have hinner : lookupAssoc d
              ((lookupAssoc r.Theme s.minutesPerThemePerDay).getD []) =
              innerLookup s r.Theme d := rfl
          rw [hinner, hMP]
          have hdparse : ∀ r' ∈ pro, r'.Date = d → (parseDate d).isSome = true := by
            intro r' hr' hrd
            rw [← hrd]
            exact hparse_pre r' (List.mem_append.mpr (Or.inl hr'))
          exact (mptdVal_append_other_date pro r d (fun hh => hd hh.symm)
            hparse_pre hdparse hsorted_pre).symm
      · rw [lookupAssoc_setAssoc_ne t r.Theme _ _ (fun hh => h hh.symm)]
        have hinner : lookupAssoc d
            ((lookupAssoc t s.minutesPerThemePerDay).getD []) =
            innerLookup s t d := rfl
        rw [hinner, hMP]
        exact (mptdVal_append_ne_theme pro r t d h).symm
    have hnd1' : (((Studies.statStep s r).minutesPerThemePerDay.map
        Prod.fst).Nodup) := by
      rw [statStep_mptd_def]
      exact nodupKeys_setAssoc _ _ _ hnd1
    have hnd2' : ∀ t, (((lookupAssoc t
        (Studies.statStep s r).minutesPerThemePerDay).getD
          []).map Prod.fst).Nodup := by
      intro t
      rw [statStep_mptd_def]
      by_cases h : r.Theme = t
      · subst h
        rw [lookupAssoc_setAssoc_self]
        simp only [Option.getD_some]
        exact nodupKeys_setAssoc _ _ _ (hnd2 r.Theme)
      · rw [lookupAssoc_setAssoc_ne t r.Theme _ _ (fun hh => h hh.symm)]
        exact hnd2 t
    have hshape : pro ++ r :: rest = (pro ++ [r]) ++ rest := by simp
    rw [List.foldl_cons, hshape]
    exact ih (pro ++ [r]) (Studies.statStep s r)
      (by rw [← hshape]; exact hparse)
      (by rw [← hshape]; exact hsort) hTM' hMP' hnd1' hnd2'

/-- C5: for each theme the per-theme cumulative map is sparse and correct —
it has exactly one (duplicate-free) entry per date the theme occurs on, whose
value is the running sum of that theme's minutes up to and including that
date; and the §8 scenario yields `totalMinutesStudied = 60`,
`perDay["02/01/2024"] = 50`, and math's series
`[(02/01/2024, 30), (03/01/2024, 40)]`. -/
theorem C5_per_theme_cumulative (records : List Studies.StudyRecord)
    (theme d : String)
    (hparse : ∀ r ∈ records, (parseDate r.Date).isSome = true) :
    (lookupAssoc d ((lookupAssoc theme
        (Studies.generateStatistics records).MinutesPerThemePerDay).getD []) =
      if ∃ r ∈ records, r.Theme = theme ∧ r.Date = d then
        some (((records.filter (fun r => r.Theme == theme &&
          !dateBefore (forceParse d) (forceParse r.Date))).map (·.Minutes)).sum)
      else none) ∧
    (((Studies.generateStatistics records).MinutesPerThemePerDay.map
        Prod.fst).Nodup ∧
      (((lookupAssoc theme
        (Studies.generateStatistics records).MinutesPerThemePerDay).getD
          []).map Prod.fst).Nodup) ∧
    ((Studies.generateStatistics
        [⟨"02/01/2024", "math", 30⟩, ⟨"02/01/2024", "algo", 20⟩,
         ⟨"03/01/2024", "math", 10⟩]).TotalMinutesStudied = 60 ∧
      (Studies.generateStatistics
        [⟨"02/01/2024", "math", 30⟩, ⟨"02/01/2024", "algo", 20⟩,
         ⟨"03/01/2024", "math", 10⟩]).TotalMinutesPerDay.data.map
          (fun e => (e.Date, e.Minutes)) =
        [("02/01/2024", 50), ("03/01/2024", 60)] ∧
      lookupAssoc "math" (Studies.generateStatistics
        [⟨"02/01/2024", "math", 30⟩, ⟨"02/01/2024", "algo", 20⟩,
         ⟨"03/01/2024", "math", 10⟩]).MinutesPerThemePerDay =
        some [("02/01/2024", 30), ("03/01/2024", 40)]) := by
  have hperm := perm_sortByLess Studies.recordLess records
  have hp_s : ∀ r ∈ sortByLess Studies.recordLess records,
      (parseDate r.Date).isSome = true :=
    fun r hr => hparse r (hperm.mem_iff.mp hr)
  have hchain : (sortByLess Studies.recordLess records).Chain'
      (fun a b : Studies.StudyRecord =>
        dateBefore (forceParse b.Date) (forceParse a.Date) = false) :=
    chain'_sortByLess Studies.recordLess recordLess_asymm records
  have hsort : (sortByLess Studies.recordLess records).Pairwise
      (fun a b : Studies.StudyRecord =>
        dateBefore (forceParse b.Date) (forceParse a.Date) = false) :=
    chain'_pairwise_of_trans
      (T := fun a b : Studies.StudyRecord =>
        dateBefore (forceParse b.Date) (forceParse a.Date) = false)
      (fun a b c h1 h2 => dateBefore_nlt_trans _ _ _ h1 h2) hchain
  have hfold := statFold_mptd (sortByLess Studies.recordLess records) []
    ⟨[], [], GoSlice.emptySlice, 0⟩
    (by simpa using hp_s) (by simpa using hsort)
    (by intro t; simp [lookupAssoc, themeVal])
    (by intro t d; simp [innerLookup, lookupAssoc, mptdVal])
    (by simp) (by intro t; simp [lookupAssoc])
  have hmp_eq : (Studies.generateStatistics records).MinutesPerThemePerDay =
      ((sortByLess Studies.recordLess records).foldl Studies.statStep
        ⟨[], [], GoSlice.emptySlice, 0⟩).minutesPerThemePerDay := genS_mptd_def records
  refine ⟨?_, ⟨?_, ?_⟩, by decide, by decide, by decide⟩
  · have hval := hfold.2.1 theme d
    simp only [List.nil_append] at hval
    have hlhs : lookupAssoc d ((lookupAssoc theme
        (Studies.generateStatistics records).MinutesPerThemePerDay).getD []) =
        innerLookup ((sortByLess Studies.recordLess records).foldl
          Studies.statStep ⟨[], [], GoSlice.emptySlice, 0⟩) theme d := by
      rw [hmp_eq]
      rfl
    rw [hlhs, hval]
    have hcond : ((sortByLess Studies.recordLess records).any
        (fun r => r.Theme == theme && r.Date == d) = true) ↔
        (∃ r ∈ records, r.Theme = theme ∧ r.Date = d) := by
      simp [List.any_eq_true, hperm.mem_iff]
    by_cases hex : ∃ r ∈ records, r.Theme = theme ∧ r.Date = d
    · rw [if_pos hex]
      unfold mptdVal
      rw [if_pos (hcond.mpr hex)]
      congr 1
      exact ((hperm.filter _).map (·.Minutes)).sum_eq
    · rw [if_neg hex]
      unfold mptdVal
      have : ((sortByLess Studies.recordLess records).any
          (fun r => r.Theme == theme && r.Date == d)) = false := by
        cases hq : (sortByLess Studies.recordLess records).any
            (fun r => r.Theme == theme && r.Date == d) with
        | false => rfl
        | true => exact absurd (hcond.mp hq) hex
      rw [this]
      simp
  · rw [hmp_eq]
    exact hfold.2.2.1
  · rw [hmp_eq]
    exact hfold.2.2.2 theme

/-- Witness for C5 at the §8 scenario: math's cumulative value on
`03/01/2024` is `40`. -/
theorem C5_per_theme_cumulative_witness :
    lookupAssoc "03/01/2024" ((lookupAssoc "math"
      (Studies.generateStatistics
        [⟨"02/01/2024", "math", 30⟩, ⟨"02/01/2024", "algo", 20⟩,
         ⟨"03/01/2024", "math", 10⟩]).MinutesPerThemePerDay).getD []) =
      some 40 :=
  ((C5_per_theme_cumulative
    [⟨"02/01/2024", "math", 30⟩, ⟨"02/01/2024", "algo", 20⟩,
     ⟨"03/01/2024", "math", 10⟩] "math" "03/01/2024" (by decide)).1).trans
    (by decide)

